import Mathlib

/-!
Formal model of `eval_binary/evaluator.py` from the bubbola-auto-extract
repository.  Python dictionaries are embedded as association lists with
insertion-order semantics (`dinsert` keeps the position of an existing key and
overwrites its value, and appends fresh keys), JSON values as the inductive
type `J`, and Python floats as rationals (the properties at stake are exact
identities and `[0, 1]` bounds, which hold in exact arithmetic).
-/

namespace EvalBinary

/-- JSON-like values as produced by `json.loads`: strings, numbers, booleans,
null, arrays and objects.  Objects are association lists in insertion order. -/
inductive J where
  | str (s : String)
  | num (q : ℚ)
  | bool (b : Bool)
  | null
  | arr (elems : List J)
  | obj (entries : List (String × J))

/-- `_is_number`: `isinstance(value, Number) and not isinstance(value, bool)`.
Only `J.num` is a number; Python booleans are explicitly excluded. -/
def isNumber : J → Bool
  | .num _ => true
  | _ => false

/-- Python dict assignment `d[k] = v`: an existing key keeps its position and
gets the new value; a fresh key is appended at the end. -/
def dinsert {α : Type} : List (String × α) → String × α → List (String × α)
  | [], kv => [kv]
  | (k, v) :: rest, kv =>
    if k = kv.1 then (k, kv.2) :: rest else (k, v) :: dinsert rest kv

/-- Python `d.update(d2)`: insert every entry of `d2` into `d` in order. -/
def dupdate {α : Type} (m m' : List (String × α)) : List (String × α) :=
  m'.foldl dinsert m

/-- Python dict lookup on a duplicate-free dict (first match). -/
def alookup {α : Type} : List (String × α) → String → Option α
  | [], _ => none
  | (k, v) :: rest, key => if k = key then some v else alookup rest key

/-- The value the key holds after all insertions, i.e. the last binding. -/
def lookupLast {α : Type} (l : List (String × α)) (key : String) : Option α :=
  alookup l.reverse key

/-- The key list of an association-list dict. -/
def keys {α : Type} (l : List (String × α)) : List String :=
  l.map Prod.fst

mutual

/-- `_flatten_fields`: walk the tree, joining path segments with `"."`; a
scalar at the root (empty path) raises `ValueError`, modelled as `none`.
Each container folds the flattened children into an initially empty dict
with `update`, exactly as the Python accumulates into `flattened`. -/
def flatten : J → List String → Option (List (String × J))
  | .obj es, path => flattenObj es path []
  | .arr xs, path => flattenArr xs path 0 []
  | v, path =>
    if path.isEmpty then none else some [(String.intercalate "." path, v)]

/-- The object branch of `_flatten_fields`: fold over the entries, updating
the accumulated dict with each child's flattened dict. -/
def flattenObj : List (String × J) → List String → List (String × J) →
    Option (List (String × J))
  | [], _, acc => some acc
  | (k, v) :: rest, path, acc =>
    match flatten v (path ++ [k]) with
    | none => none
    | some m => flattenObj rest path (dupdate acc m)

/-- The list branch of `_flatten_fields`: fold over the elements with their
zero-based indices, stringified. -/
def flattenArr : List J → List String → Nat → List (String × J) →
    Option (List (String × J))
  | [], _, _, acc => some acc
  | v :: rest, path, idx, acc =>
    match flatten v (path ++ [toString idx]) with
    | none => none
    | some m => flattenArr rest path (idx + 1) (dupdate acc m)

end

mutual

/-- The leaf sequence of a tree in traversal order, with joined paths and no
dictionary de-duplication (an analysis helper for reasoning about
`flatten`, not part of the embedded program). -/
def leaves : J → List String → List (String × J)
  | .obj es, path => leavesObj es path
  | .arr xs, path => leavesArr xs path 0
  | v, path => [(String.intercalate "." path, v)]

/-- Leaf sequence of an object node, children in entry order. -/
def leavesObj : List (String × J) → List String → List (String × J)
  | [], _ => []
  | (k, v) :: rest, path => leaves v (path ++ [k]) ++ leavesObj rest path

/-- Leaf sequence of an array node, children in index order. -/
def leavesArr : List J → List String → Nat → List (String × J)
  | [], _, _ => []
  | v :: rest, path, idx => leaves v (path ++ [toString idx]) ++ leavesArr rest path (idx + 1)

end

/-- `_numeric_similarity` reads the numeric payload of the actual value
after the `_is_number` guard. -/
def numOf : J → ℚ
  | .num q => q
  | _ => 0

/-- `_numeric_similarity`: 0 when `actual` is not a number; otherwise a
relative-error score `max(0, 1 - min(diff, 1))` with
`diff = |expected - actual| / max(|expected|, |actual|, 1.0)`. -/
def numericSim (expected : ℚ) (actual : J) : ℚ :=
  match actual with
  | .num a =>
    let scale := max |expected| (max |a| 1)
    let diff := |expected - a| / scale
    max 0 (1 - min diff 1)
  | _ => 0

/-- Inner loop for `lcs`: given the head `a` of the first list, the
function on the remaining tail (`g = lcs as`), and its own value on
shorter second lists, compute `lcs (a :: as)`. -/
def lcsAux (a : Char) (g : List Char → Nat) : List Char → Nat
  | [] => 0
  | b :: bs => if a = b then g bs + 1 else max (lcsAux a g bs) (g (b :: bs))

/-- Length of a longest common subsequence of two character lists. -/
def lcs : List Char → List Char → Nat
  | [], _ => 0
  | a :: as, bs => lcsAux a (lcs as) bs

/-- Modelled from the spec: the normalized sequence-alignment ratio
`2 * M / T` of `difflib.SequenceMatcher.ratio` (Python standard library,
outside this repository).  Spec section 4.2 allows "any standard
longest-common-subsequence-style ratio implementation" with identical
strings scoring 1.0, which this satisfies; two empty strings score 1.0
exactly as `difflib` does. -/
def ratio (a b : List Char) : ℚ :=
  if a.length + b.length = 0 then 1
  else 2 * (lcs a b : ℚ) / ((a.length : ℚ) + (b.length : ℚ))

/-- `_text_similarity`: 0 when `actual` is not a string, else the
sequence-alignment ratio of the two strings. -/
def textSim (expected : String) (actual : J) : ℚ :=
  match actual with
  | .str s => ratio expected.toList s.toList
  | _ => 0

/-- Modelled from the spec: the canonical string serialization
(`json.dumps(expected, sort_keys=True)`, Python standard library, outside
this repository) applied to a flattened leaf, which is never an object or an
array; the exact decimal rendering of Python floats is abstracted as the
rational's string form. -/
def dumps : J → String
  | .null => "null"
  | .bool true => "true"
  | .bool false => "false"
  | .num q => toString q
  | .str s => "\x22" ++ s ++ "\x22"
  | .arr _ => ""
  | .obj _ => ""

/-- The string compared on the expected side of `_text_similarity`:
`expected if isinstance(expected, str) else json.dumps(expected, sort_keys=True)`. -/
def expectedText : J → String
  | .str t => t
  | v => dumps v

/-- Code-point lexicographic order on character lists, as Python compares
strings. -/
def lexLe : List Char → List Char → Bool
  | [], _ => true
  | _ :: _, [] => false
  | a :: as, b :: bs => if a = b then lexLe as bs else decide (a.val < b.val)

/-- Python `s1 <= s2` on strings: code-point lexicographic. -/
def strLe (a b : String) : Bool := lexLe a.data b.data

/-- Python `sorted` on a list of strings. -/
def sortStr (l : List String) : List String :=
  l.insertionSort (fun a b => strLe a b = true)

/-- Python `dict(sorted(d.items()))`: sort the entries by key (keys are
pairwise distinct, so the values are never compared). -/
def sortByKey {α : Type} (l : List (String × α)) : List (String × α) :=
  l.insertionSort (fun x y => strLe x.1 y.1 = true)

/-- A parsed document record: `document_id` plus its `fields` dict (the
parser accepts only JSON objects as `fields`). -/
structure Document where
  document_id : String
  fields : List (String × J)

/-- `_parse_payload`'s per-entry loop, carrying the `documents` dict.
Each entry must be a JSON object holding a string `document_id` and an
object `fields`; a valid entry is stored with `documents[document_id] = ...`
(last write wins), anything else raises `ValueError`. -/
def parseEntries : List J → List (String × Document) →
    Except String (List (String × Document))
  | [], acc => .ok acc
  | e :: rest, acc =>
    match e with
    | .obj es =>
      match alookup es "document_id", alookup es "fields" with
      | some (.str s), some (.obj fs) =>
        parseEntries rest (dinsert acc (s, ⟨s, fs⟩))
      | _, _ => .error "Each document requires 'document_id' (str) and 'fields' (object)"
    | _ => .error "Each document entry must be a JSON object"

/-- `_parse_payload` on an already-decoded JSON list (the `Iterable` guard
is inherent: the embedded payload is a Lean list). -/
def parsePayload (payload : List J) : Except String (List (String × Document)) :=
  parseEntries payload []

/-- A record is accepted by `_parse_payload` iff it is a JSON object whose
`document_id` is a string and whose `fields` is a JSON object. -/
def WellFormedEntry : J → Prop
  | .obj es =>
    (∃ s, alookup es "document_id" = some (.str s)) ∧
    (∃ fs, alookup es "fields" = some (.obj fs))
  | _ => False

/-- The flattened field dict of a document: `_flatten_fields(doc.fields)`.
The root is always an object, so flattening never raises (see
`flatten_obj_eq_docFlat`). -/
def docFlat (d : Document) : List (String × J) :=
  (flatten (J.obj d.fields) []).getD []

/-- The mutable accumulators of `evaluate_predictions`, in declaration
order. -/
@[ext]
structure EvalState where
  total_fields : Nat
  docs_with_predictions : Nat
  matched_fields : Nat
  numeric_total : Nat
  numeric_score : ℚ
  text_total : Nat
  text_score : ℚ
  missing_docs : List String
  missing_field_count : Nat
  extra_field_count : Nat
  missing_fields_by_doc : List (String × List String)
  extra_fields_by_doc : List (String × List String)

/-- The all-zero initial accumulators. -/
def initState : EvalState :=
  ⟨0, 0, 0, 0, 0, 0, 0, [], 0, 0, [], []⟩

/-- `_record_missing_fields`: store the sorted path list under the document
id, unless there are no paths. -/
def recordMissingFields (doc_id : String) (gt_fields : List (String × J))
    (missing_fields : List (String × List String)) : List (String × List String) :=
  let paths := sortStr (keys gt_fields)
  if paths = [] then missing_fields else dinsert missing_fields (doc_id, paths)

/-- `pred_flat.get(path)` as the scoring loop observes it: Python's
`dict.get` returns `None` both for a missing key and for a stored null, and
the `predicted is not None` guard cannot tell the two apart. -/
def pyGet (m : List (String × J)) (k : String) : Option J :=
  match alookup m k with
  | some .null => none
  | r => r

/-- The `for path, expected in gt_flat.items()` scoring step: classify the
expected value, bump the class total, and when `predicted is not None` add
the class similarity to the class score sum. -/
def scoreStep (pred_flat : List (String × J)) (s : EvalState)
    (pe : String × J) : EvalState :=
  let predicted := pyGet pred_flat pe.1
  if isNumber pe.2 then
    let s := { s with numeric_total := s.numeric_total + 1 }
    match predicted with
    | some v => { s with numeric_score := s.numeric_score + numericSim (numOf pe.2) v }
    | none => s
  else
    let s := { s with text_total := s.text_total + 1 }
    match predicted with
    | some v => { s with text_score := s.text_score + textSim (expectedText pe.2) v }
    | none => s

/-- The classification loop of the missing-document branch: every leaf value
bumps its class total; nothing is added to either score sum. -/
def classifyStep (s : EvalState) (pe : String × J) : EvalState :=
  if isNumber pe.2 then { s with numeric_total := s.numeric_total + 1 }
  else { s with text_total := s.text_total + 1 }

/-- The body of the `for doc_id, gt_doc in ground_truth.items()` loop of
`evaluate_predictions`. -/
def processDoc (predictions : List (String × Document)) (s : EvalState)
    (entry : String × Document) : EvalState :=
  let doc_id := entry.1
  let gt_flat := docFlat entry.2
  let s := { s with total_fields := s.total_fields + gt_flat.length }
  match alookup predictions doc_id with
  | none =>
    let s := { s with
      missing_docs := s.missing_docs ++ [doc_id],
      missing_field_count := s.missing_field_count + gt_flat.length }
    let s := { s with
      missing_fields_by_doc := recordMissingFields doc_id gt_flat s.missing_fields_by_doc }
    gt_flat.foldl classifyStep s
  | some pred_doc =>
    let s := { s with docs_with_predictions := s.docs_with_predictions + 1 }
    let pred_flat := docFlat pred_doc
    let common := (keys gt_flat).filter (fun k => k ∈ keys pred_flat)
    let s := { s with matched_fields := s.matched_fields + common.length }
    let missing_paths := sortStr ((keys gt_flat).filter (fun k => k ∉ keys pred_flat))
    let s :=
      if missing_paths = [] then s
      else { s with
        missing_fields_by_doc := dinsert s.missing_fields_by_doc (doc_id, missing_paths),
        missing_field_count := s.missing_field_count + missing_paths.length }
    let extra_paths := sortStr ((keys pred_flat).filter (fun k => k ∉ keys gt_flat))
    let s :=
      if extra_paths = [] then s
      else { s with
        extra_fields_by_doc := dinsert s.extra_fields_by_doc (doc_id, extra_paths),
        extra_field_count := s.extra_field_count + extra_paths.length }
    gt_flat.foldl (scoreStep pred_flat) s

/-- `sorted(set(predictions.keys()) - set(ground_truth.keys()))`. -/
def extraDocs (ground_truth predictions : List (String × Document)) : List String :=
  sortStr (((keys predictions).filter (fun k => k ∉ keys ground_truth)).dedup)

/-- The body of the `for doc_id in extra_docs` loop: flatten the unexpected
document and, when it has any leaf, record its sorted paths and add their
count. -/
def processExtra (predictions : List (String × Document)) (s : EvalState)
    (doc_id : String) : EvalState :=
  let extra_flat := docFlat ((alookup predictions doc_id).getD ⟨doc_id, []⟩)
  if extra_flat.isEmpty then s
  else { s with
    extra_fields_by_doc := dinsert s.extra_fields_by_doc (doc_id, sortStr (keys extra_flat)),
    extra_field_count := s.extra_field_count + extra_flat.length }

/-- The accumulator state after both loops of `evaluate_predictions`. -/
def evalState (ground_truth predictions : List (String × Document)) : EvalState :=
  let s := ground_truth.foldl (processDoc predictions) initState
  (extraDocs ground_truth predictions).foldl (processExtra predictions) s

/-- Python `round(x, 4)` on the exact value (ties, which Python resolves
to even on binary floats, do not arise in the properties at stake). -/
def round4 (x : ℚ) : ℚ := (round (x * 10000) : ℚ) / 10000

/-- The report returned by `evaluate_predictions`. -/
structure Report where
  num_documents : Nat
  num_fields : Nat
  document_coverage : ℚ
  numeric_field_similarity : ℚ
  text_field_similarity : ℚ
  structural_completeness : ℚ
  overall_score : ℚ
  missing_documents : List String
  extra_documents : List String
  missing_field_count : Nat
  extra_field_count : Nat
  missing_fields : List (String × List String)
  extra_fields : List (String × List String)
deriving DecidableEq

/-- `evaluate_predictions`: run both loops, then fold the accumulators into
the aggregate metrics, each ratio defaulting when its denominator is zero. -/
def evaluate (ground_truth predictions : List (String × Document)) : Report :=
  let s := evalState ground_truth predictions
  let numeric_similarity : ℚ :=
    if s.numeric_total ≠ 0 then s.numeric_score / s.numeric_total else 1
  let text_similarity : ℚ :=
    if s.text_total ≠ 0 then s.text_score / s.text_total else 1
  let structural_completeness : ℚ :=
    if s.total_fields ≠ 0 then (s.matched_fields : ℚ) / s.total_fields else 1
  let coverage : ℚ :=
    if ground_truth.length ≠ 0 then (s.docs_with_predictions : ℚ) / ground_truth.length else 0
  let overall_score :=
    (coverage + structural_completeness + numeric_similarity + text_similarity) / 4
  { num_documents := ground_truth.length
    num_fields := s.total_fields
    document_coverage := round4 coverage
    numeric_field_similarity := round4 numeric_similarity
    text_field_similarity := round4 text_similarity
    structural_completeness := round4 structural_completeness
    overall_score := round4 overall_score
    missing_documents := sortStr s.missing_docs
    extra_documents := extraDocs ground_truth predictions
    missing_field_count := s.missing_field_count
    extra_field_count := s.extra_field_count
    missing_fields := sortByKey s.missing_fields_by_doc
    extra_fields := sortByKey s.extra_fields_by_doc }

/-! ### Dictionary lemmas -/

theorem keys_nil {α : Type} : keys ([] : List (String × α)) = [] := rfl

theorem keys_cons {α : Type} (e : String × α) (l : List (String × α)) :
    keys (e :: l) = e.1 :: keys l := rfl

theorem keys_append {α : Type} (a b : List (String × α)) :
    keys (a ++ b) = keys a ++ keys b := by
  simp [keys]

theorem keys_reverse {α : Type} (l : List (String × α)) :
    keys l.reverse = (keys l).reverse := by
  simp [keys]

theorem alookup_dinsert {α : Type} (m : List (String × α)) (k1 : String) (v1 : α)
    (k : String) :
    alookup (dinsert m (k1, v1)) k = if k1 = k then some v1 else alookup m k := by
  induction m with
  | nil => simp [dinsert, alookup]
  | cons e rest ih =>
    obtain ⟨k0, v0⟩ := e
    by_cases h0 : k0 = k1
    · subst h0
      by_cases hk : k0 = k
      · subst hk
        simp [dinsert, alookup]
      · simp [dinsert, alookup, hk]
    · have h1 : ¬ k1 = k0 := fun h => h0 h.symm
      by_cases hk : k0 = k
      · subst hk
        simp [dinsert, alookup, h0, h1]
      · simp [dinsert, alookup, h0, hk, ih]

theorem keys_dinsert {α : Type} (m : List (String × α)) (k1 : String) (v1 : α) :
    keys (dinsert m (k1, v1)) = if k1 ∈ keys m then keys m else keys m ++ [k1] := by
  induction m with
  | nil => simp [dinsert, keys_nil, keys_cons]
  | cons a rest ih =>
    obtain ⟨k0, v0⟩ := a
    by_cases h0 : k0 = k1
    · subst h0
      simp [dinsert, keys_cons]
    · have h1 : ¬ k1 = k0 := fun h => h0 h.symm
      by_cases hm : k1 ∈ keys rest
      · simp [dinsert, keys_cons, h0, h1, hm, ih]
      · simp [dinsert, keys_cons, h0, h1, hm, ih]

theorem nodup_keys_dinsert {α : Type} (m : List (String × α)) (k1 : String) (v1 : α)
    (h : (keys m).Nodup) : (keys (dinsert m (k1, v1))).Nodup := by
  rw [keys_dinsert]
  by_cases hm : k1 ∈ keys m
  · simpa [hm] using h
  · simp only [hm, if_false, List.nodup_append]
    exact ⟨h, List.nodup_singleton _, by simpa using fun h' => hm h'⟩

theorem alookup_eq_none {α : Type} (l : List (String × α)) (k : String) :
    alookup l k = none ↔ k ∉ keys l := by
  induction l with
  | nil => simp [alookup, keys_nil]
  | cons e rest ih =>
    obtain ⟨k0, v0⟩ := e
    by_cases hk : k0 = k
    · subst hk
      simp [alookup, keys_cons]
    · have hk' : ¬ k = k0 := fun h => hk h.symm
      simp [alookup, keys_cons, hk, hk', ih]

theorem alookup_mem {α : Type} {l : List (String × α)} {k : String} {v : α}
    (h : alookup l k = some v) : (k, v) ∈ l := by
  induction l with
  | nil => simp [alookup] at h
  | cons e rest ih =>
    obtain ⟨k0, v0⟩ := e
    by_cases hk : k0 = k
    · subst hk
      simp [alookup] at h
      simp [h]
    · simp [alookup, hk] at h
      simp [ih h]

theorem mem_alookup {α : Type} {l : List (String × α)} {k : String} {v : α}
    (hnd : (keys l).Nodup) (h : (k, v) ∈ l) : alookup l k = some v := by
  induction l with
  | nil => simp at h
  | cons e rest ih =>
    obtain ⟨k0, v0⟩ := e
    rw [keys_cons, List.nodup_cons] at hnd
    rcases List.mem_cons.mp h with h1 | h1
    · have hk := congrArg Prod.fst h1
      have hv := congrArg Prod.snd h1
      simp only at hk hv
      subst hk
      subst hv
      simp [alookup]
    · have hk : ¬ k0 = k := by
        rintro rfl
        exact hnd.1 (by simpa [keys] using List.mem_map_of_mem Prod.fst h1)
      simp [alookup, hk, ih hnd.2 h1]

theorem alookup_isSome {α : Type} (l : List (String × α)) (k : String) :
    (alookup l k).isSome ↔ k ∈ keys l := by
  cases h : alookup l k with
  | none => simp [(alookup_eq_none l k).mp h]
  | some v =>
    simp only [Option.isSome_some, true_iff]
    have hm := alookup_mem h
    exact List.mem_map.mpr ⟨(k, v), hm, rfl⟩

theorem alookup_append {α : Type} (a b : List (String × α)) (k : String) :
    alookup (a ++ b) k = (alookup a k).or (alookup b k) := by
  induction a with
  | nil => simp [alookup, Option.or]
  | cons e rest ih =>
    obtain ⟨k0, v0⟩ := e
    by_cases hk : k0 = k <;> simp [alookup, hk, ih, Option.or]

theorem lookupLast_append {α : Type} (a b : List (String × α)) (k : String) :
    lookupLast (a ++ b) k = (lookupLast b k).or (lookupLast a k) := by
  unfold lookupLast
  rw [List.reverse_append, alookup_append]

theorem lookupLast_cons {α : Type} (k0 : String) (v0 : α) (rest : List (String × α))
    (k : String) :
    lookupLast ((k0, v0) :: rest) k =
      (lookupLast rest k).or (if k0 = k then some v0 else none) := by
  have h := lookupLast_append [(k0, v0)] rest k
  simp only [List.singleton_append] at h
  rw [h]
  unfold lookupLast
  simp [alookup]

theorem alookup_foldl_dinsert {α : Type} (l : List (String × α))
    (m : List (String × α)) (k : String) :
    alookup (l.foldl dinsert m) k = (lookupLast l k).or (alookup m k) := by
  induction l generalizing m with
  | nil => simp [lookupLast, alookup, Option.or]
  | cons e rest ih =>
    obtain ⟨k0, v0⟩ := e
    rw [List.foldl_cons, ih, lookupLast_cons, alookup_dinsert, Option.or_assoc]
    by_cases hk : k0 = k
    · simp [hk, Option.or]
    · simp [hk, Option.or]

theorem nodup_keys_foldl_dinsert {α : Type} (l : List (String × α))
    (m : List (String × α)) (h : (keys m).Nodup) :
    (keys (l.foldl dinsert m)).Nodup := by
  induction l generalizing m with
  | nil => simpa using h
  | cons e rest ih =>
    obtain ⟨k0, v0⟩ := e
    exact ih _ (nodup_keys_dinsert _ _ _ h)

theorem alookup_eq_lookupLast {α : Type} (l : List (String × α))
    (hnd : (keys l).Nodup) (k : String) : alookup l k = lookupLast l k := by
  cases h : alookup l k with
  | none =>
    have hk := (alookup_eq_none l k).mp h
    have hnone : lookupLast l k = none := by
      rw [lookupLast, alookup_eq_none, keys_reverse]
      simpa using hk
    rw [hnone]
  | some v =>
    have hv : (k, v) ∈ l.reverse := by simpa using alookup_mem h
    have hnd' : (keys l.reverse).Nodup := by
      rw [keys_reverse]
      simpa using hnd
    exact (mem_alookup hnd' hv).symm

theorem alookup_perm {α : Type} {l1 l2 : List (String × α)} (hp : l1.Perm l2)
    (hnd : (keys l1).Nodup) (k : String) : alookup l1 k = alookup l2 k := by
  have hnd2 : (keys l2).Nodup := (hp.map Prod.fst).nodup_iff.mp hnd
  cases h : alookup l1 k with
  | none =>
    have hk := (alookup_eq_none l1 k).mp h
    rw [eq_comm, alookup_eq_none]
    exact fun hm => hk (((hp.map Prod.fst).mem_iff).mpr hm)
  | some v =>
    exact (mem_alookup hnd2 (hp.mem_iff.mp (alookup_mem h))).symm

/-! ### Flattening lemmas -/

theorem flattenObj_isSome (es : List (String × J)) (path : List String)
    (acc : List (String × J)) : (flattenObj es path acc).isSome := by
  refine flattenObj.induct
    (fun t path => path ≠ [] → (flatten t path).isSome)
    (fun xs path idx acc => (flattenArr xs path idx acc).isSome)
    (fun es path acc => (flattenObj es path acc).isSome)
    ?_ ?_ ?_ ?_ ?_ ?_ ?_ ?_ ?_ ?_ es path acc
  · intro es path h _
    simpa [flatten] using h
  · intro xs path h _
    simpa [flatten] using h
  · intro v path _ _ hempty hne
    exact absurd (List.isEmpty_iff.mp hempty) hne
  · intro v path h1 h2 hempty _
    cases v with
    | obj es => exact absurd rfl (fun h => h1 es h)
    | arr xs => exact absurd rfl (fun h => h2 xs h)
    | str s => simp [flatten, hempty]
    | num q => simp [flatten, hempty]
    | bool b => simp [flatten, hempty]
    | null => simp [flatten, hempty]
  · intro _ _ acc
    simp [flattenArr]
  · intro v rest path idx acc hnone ih
    have h := ih (by simp)
    rw [hnone] at h
    simp at h
  · intro v rest path idx acc m hsome _ ih
    simpa [flattenArr, hsome] using ih
  · intro _ acc
    simp [flattenObj]
  · intro k v rest path acc hnone ih
    have h := ih (by simp)
    rw [hnone] at h
    simp at h
  · intro k v rest path acc m hsome _ ih
    simpa [flattenObj, hsome] using ih

theorem docFlat_eq (d : Document) : flatten (J.obj d.fields) [] = some (docFlat d) := by
  have h : (flatten (J.obj d.fields) []).isSome := by
    simpa [flatten] using flattenObj_isSome d.fields [] []
  obtain ⟨m, hm⟩ := Option.isSome_iff_exists.mp h
  rw [hm, docFlat, hm]
  rfl

theorem flatten_nodup (t : J) (path : List String) :
    ∀ m, flatten t path = some m → (keys m).Nodup := by
  refine flatten.induct
    (fun t path => ∀ m, flatten t path = some m → (keys m).Nodup)
    (fun xs path idx acc => ∀ m, flattenArr xs path idx acc = some m →
      (keys acc).Nodup → (keys m).Nodup)
    (fun es path acc => ∀ m, flattenObj es path acc = some m →
      (keys acc).Nodup → (keys m).Nodup)
    ?_ ?_ ?_ ?_ ?_ ?_ ?_ ?_ ?_ ?_ t path
  · intro es path h m hm
    refine h m ?_ (by simp [keys_nil])
    simpa [flatten] using hm
  · intro xs path h m hm
    refine h m ?_ (by simp [keys_nil])
    simpa [flatten] using hm
  · intro v path _ _ hempty m hm
    rw [flatten.eq_def] at hm
    cases v <;> simp [hempty] at hm <;> simp_all [flatten]
  · intro v path h1 h2 hempty m hm
    cases v with
    | obj es => exact absurd rfl (fun h => h1 es h)
    | arr xs => exact absurd rfl (fun h => h2 xs h)
    | str s =>
      simp [flatten, hempty] at hm
      simp [← hm, keys_cons, keys_nil]
    | num q =>
      simp [flatten, hempty] at hm
      simp [← hm, keys_cons, keys_nil]
    | bool b =>
      simp [flatten, hempty] at hm
      simp [← hm, keys_cons, keys_nil]
    | null =>
      simp [flatten, hempty] at hm
      simp [← hm, keys_cons, keys_nil]
  · intro _ _ acc m hm hacc
    simp [flattenArr] at hm
    rwa [← hm]
  · intro v rest path idx acc hnone ih m hm
    simp [flattenArr, hnone] at hm
  · intro v rest path idx acc mc hsome _ ih m hm hacc
    refine ih m ?_ ?_
    · simpa [flattenArr, hsome] using hm
    · exact nodup_keys_foldl_dinsert _ _ hacc
  · intro _ acc m hm hacc
    simp [flattenObj] at hm
    rwa [← hm]
  · intro k v rest path acc hnone ih m hm
    simp [flattenObj, hnone] at hm
  · intro k v rest path acc mc hsome _ ih m hm hacc
    refine ih m ?_ ?_
    · simpa [flattenObj, hsome] using hm
    · exact nodup_keys_foldl_dinsert _ _ hacc

theorem docFlat_nodup (d : Document) : (keys (docFlat d)).Nodup :=
  flatten_nodup _ _ _ (docFlat_eq d)

/-- The dict produced by `_flatten_fields` holds, at every path, the value of
the LAST leaf with that path in traversal order (later `update`s win). -/
theorem flatten_alookup (t : J) (path : List String) :
    ∀ m, flatten t path = some m → ∀ k, alookup m k = lookupLast (leaves t path) k := by
  refine flatten.induct
    (fun t path => ∀ m, flatten t path = some m →
      ∀ k, alookup m k = lookupLast (leaves t path) k)
    (fun xs path idx acc => ∀ m, flattenArr xs path idx acc = some m →
      ∀ k, alookup m k = (lookupLast (leavesArr xs path idx) k).or (alookup acc k))
    (fun es path acc => ∀ m, flattenObj es path acc = some m →
      ∀ k, alookup m k = (lookupLast (leavesObj es path) k).or (alookup acc k))
    ?_ ?_ ?_ ?_ ?_ ?_ ?_ ?_ ?_ ?_ t path
  · intro es path h m hm k
    rw [leaves]
    rw [flatten.eq_def] at hm
    simp only at hm
    rw [h m hm k, alookup]
    cases lookupLast (leavesObj es path) k <;> simp [Option.or]
  · intro xs path h m hm k
    rw [leaves]
    rw [flatten.eq_def] at hm
    simp only at hm
    rw [h m hm k, alookup]
    cases lookupLast (leavesArr xs path 0) k <;> simp [Option.or]
  · intro v path _ _ hempty m hm
    rw [flatten.eq_def] at hm
    cases v <;> simp [hempty] at hm <;> simp_all [flatten]
  · intro v path h1 h2 hempty m hm k
    have hleaf : leaves v path = [(String.intercalate "." path, v)] := by
      cases v with
      | obj es => exact absurd rfl (fun h => h1 es h)
      | arr xs => exact absurd rfl (fun h => h2 xs h)
      | str s => rfl
      | num q => rfl
      | bool b => rfl
      | null => rfl
    have hm' : m = [(String.intercalate "." path, v)] := by
      cases v with
      | obj es => exact absurd rfl (fun h => h1 es h)
      | arr xs => exact absurd rfl (fun h => h2 xs h)
      | str s => simpa [flatten, hempty] using hm.symm
      | num q => simpa [flatten, hempty] using hm.symm
      | bool b => simpa [flatten, hempty] using hm.symm
      | null => simpa [flatten, hempty] using hm.symm
    subst hm'
    rw [hleaf]
    rfl
  · intro _ idx acc m hm k
    simp [flattenArr] at hm
    subst hm
    simp [leavesArr, lookupLast, alookup, Option.or]
  · intro v rest path idx acc hnone ih m hm
    simp [flattenArr, hnone] at hm
  · intro v rest path idx acc mc hsome ihv ih m hm k
    have hm' : flattenArr rest path (idx + 1) (dupdate acc mc) = some m := by
      simpa [flattenArr, hsome] using hm
    rw [ih m hm' k, leavesArr, lookupLast_append, dupdate, alookup_foldl_dinsert,
      ← Option.or_assoc]
    have hc : lookupLast mc k = lookupLast (leaves v (path ++ [toString idx])) k := by
      rw [← ihv mc hsome k]
      exact (alookup_eq_lookupLast mc (flatten_nodup _ _ mc hsome) k).symm
    rw [hc]
  · intro _ acc m hm k
    simp [flattenObj] at hm
    subst hm
    simp [leavesObj, lookupLast, alookup, Option.or]
  · intro k0 v rest path acc hnone ih m hm
    simp [flattenObj, hnone] at hm
  · intro k0 v rest path acc mc hsome ihv ih m hm k
    have hm' : flattenObj rest path (dupdate acc mc) = some m := by
      simpa [flattenObj, hsome] using hm
    rw [ih m hm' k, leavesObj, lookupLast_append, dupdate, alookup_foldl_dinsert,
      ← Option.or_assoc]
    have hc : lookupLast mc k = lookupLast (leaves v (path ++ [k0])) k := by
      rw [← ihv mc hsome k]
      exact (alookup_eq_lookupLast mc (flatten_nodup _ _ mc hsome) k).symm
    rw [hc]

/-- Permuting the entries of an object node permutes its leaf sequence. -/
theorem leavesObj_perm {es1 es2 : List (String × J)} (hp : es1.Perm es2)
    (path : List String) : (leavesObj es1 path).Perm (leavesObj es2 path) := by
  induction hp with
  | nil => exact List.Perm.refl _
  | cons e _ ih =>
    obtain ⟨k, v⟩ := e
    exact (List.Perm.append_left _ ih)
  | swap a b l =>
    obtain ⟨ka, va⟩ := a
    obtain ⟨kb, vb⟩ := b
    show (leaves vb (path ++ [kb]) ++ (leaves va (path ++ [ka]) ++ leavesObj l path)).Perm
      (leaves va (path ++ [ka]) ++ (leaves vb (path ++ [kb]) ++ leavesObj l path))
    rw [← List.append_assoc, ← List.append_assoc]
    exact List.Perm.append_right _ List.perm_append_comm
  | trans _ _ ih1 ih2 => exact ih1.trans ih2

/-! ### Similarity lemmas -/

theorem lcs_self (l : List Char) : lcs l l = l.length := by
  induction l with
  | nil => rfl
  | cons a as ih => simp [lcs, lcsAux, ih]

theorem lcsAux_le_of_le (a : Char) (g : List Char → Nat) (n : Nat)
    (hg : ∀ bs, g bs ≤ n) : ∀ bs, lcsAux a g bs ≤ n + 1 := by
  intro bs
  induction bs with
  | nil => simp [lcsAux]
  | cons b bs ih =>
    by_cases hab : a = b
    · simpa [lcsAux, hab] using hg bs
    · simp only [lcsAux, hab, if_false, max_le_iff]
      exact ⟨ih, (hg (b :: bs)).trans (Nat.le_succ n)⟩

theorem lcs_le_left (a b : List Char) : lcs a b ≤ a.length := by
  induction a generalizing b with
  | nil => simp [lcs]
  | cons x as ih => simpa [lcs] using lcsAux_le_of_le x (lcs as) as.length ih b

theorem lcsAux_le_len (a : Char) (g : List Char → Nat)
    (hg : ∀ bs, g bs ≤ bs.length) : ∀ bs, lcsAux a g bs ≤ bs.length := by
  intro bs
  induction bs with
  | nil => simp [lcsAux]
  | cons b bs ih =>
    by_cases hab : a = b
    · simpa [lcsAux, hab] using hg bs
    · simp only [lcsAux, hab, if_false, max_le_iff, List.length_cons]
      exact ⟨ih.trans (Nat.le_succ _), hg (b :: bs)⟩

theorem lcs_le_right (a b : List Char) : lcs a b ≤ b.length := by
  induction a generalizing b with
  | nil => simp [lcs]
  | cons x as ih => simpa [lcs] using lcsAux_le_len x (lcs as) ih b

theorem ratio_nonneg (a b : List Char) : 0 ≤ ratio a b := by
  rw [ratio]
  split
  · norm_num
  · positivity

theorem ratio_le_one (a b : List Char) : ratio a b ≤ 1 := by
  rw [ratio]
  split
  · norm_num
  · rename_i h
    have hpos : (0 : ℚ) < (a.length : ℚ) + (b.length : ℚ) := by
      have hlen : 0 < a.length + b.length := Nat.pos_of_ne_zero h
      exact_mod_cast hlen
    rw [div_le_one hpos]
    have h1 : (lcs a b : ℚ) ≤ (a.length : ℚ) := by exact_mod_cast lcs_le_left a b
    have h2 : (lcs a b : ℚ) ≤ (b.length : ℚ) := by exact_mod_cast lcs_le_right a b
    linarith

theorem ratio_self (l : List Char) : ratio l l = 1 := by
  rw [ratio]
  split
  · rfl
  · rename_i h
    have hl : l.length ≠ 0 := by omega
    have hne : (l.length : ℚ) ≠ 0 := by exact_mod_cast hl
    rw [lcs_self]
    field_simp
    ring

theorem textSim_nonneg (s : String) (v : J) : 0 ≤ textSim s v := by
  cases v with
  | str t => exact ratio_nonneg _ _
  | num q => simp [textSim]
  | bool b => simp [textSim]
  | null => simp [textSim]
  | arr xs => simp [textSim]
  | obj es => simp [textSim]

theorem textSim_le_one (s : String) (v : J) : textSim s v ≤ 1 := by
  cases v with
  | str t => exact ratio_le_one _ _
  | num q => simp [textSim]
  | bool b => simp [textSim]
  | null => simp [textSim]
  | arr xs => simp [textSim]
  | obj es => simp [textSim]

theorem textSim_self (s : String) : textSim s (.str s) = 1 := by
  simp [textSim, ratio_self]

theorem numericSim_nonneg (e : ℚ) (v : J) : 0 ≤ numericSim e v := by
  cases v with
  | num a => exact le_max_left 0 _
  | str s => simp [numericSim]
  | bool b => simp [numericSim]
  | null => simp [numericSim]
  | arr xs => simp [numericSim]
  | obj es => simp [numericSim]

theorem numericSim_le_one (e : ℚ) (v : J) : numericSim e v ≤ 1 := by
  cases v with
  | num a =>
    simp only [numericSim, max_le_iff]
    constructor
    · norm_num
    · have hscale : (0 : ℚ) < max |e| (max |a| 1) := lt_of_lt_of_le one_pos
        (le_max_of_le_right (le_max_right _ _))
      have hd : 0 ≤ |e - a| / max |e| (max |a| 1) := div_nonneg (abs_nonneg _) hscale.le
      have : 0 ≤ min (|e - a| / max |e| (max |a| 1)) 1 := le_min hd zero_le_one
      linarith
  | str s => simp [numericSim]
  | bool b => simp [numericSim]
  | null => simp [numericSim]
  | arr xs => simp [numericSim]
  | obj es => simp [numericSim]

theorem numericSim_self (q : ℚ) : numericSim q (.num q) = 1 := by
  simp [numericSim]

/-! ### Closed forms for the scoring loops -/

/-- Number of numeric leaves in a flattened dict. -/
def numCount (l : List (String × J)) : Nat :=
  (l.filter (fun pv => isNumber pv.2)).length

/-- Number of non-numeric (textual) leaves in a flattened dict. -/
def textCount (l : List (String × J)) : Nat :=
  (l.filter (fun pv => !isNumber pv.2)).length

/-- Sum, over the numeric ground-truth leaves whose path is present as a key
of the prediction dict, of the numeric similarity of expected and predicted
values. -/
def numPresentSum (gtf pf : List (String × J)) : ℚ :=
  ((gtf.filter (fun pv => isNumber pv.2 && decide (pv.1 ∈ keys pf))).map
    (fun pv => numericSim (numOf pv.2) ((alookup pf pv.1).getD J.null))).sum

/-- Sum, over the textual ground-truth leaves whose path is present as a key
of the prediction dict, of the text similarity of expected and predicted
values. -/
def textPresentSum (gtf pf : List (String × J)) : ℚ :=
  ((gtf.filter (fun pv => !isNumber pv.2 && decide (pv.1 ∈ keys pf))).map
    (fun pv => textSim (expectedText pv.2) ((alookup pf pv.1).getD J.null))).sum

theorem scoreFold_spec (pf : List (String × J)) (gtf : List (String × J))
    (s : EvalState) :
    gtf.foldl (scoreStep pf) s =
      { s with
        numeric_total := s.numeric_total + numCount gtf
        text_total := s.text_total + textCount gtf
        numeric_score := s.numeric_score + numPresentSum gtf pf
        text_score := s.text_score + textPresentSum gtf pf } := by
  induction gtf generalizing s with
  | nil =>
    simp [numCount, textCount, numPresentSum, textPresentSum]
  | cons pe rest ih =>
    obtain ⟨p, e⟩ := pe
    rw [List.foldl_cons, ih]
    rcases halk : alookup pf p with _ | v
    · have hmem : p ∉ keys pf := (alookup_eq_none pf p).mp halk
      by_cases hnum : isNumber e
      · ext <;>
          simp [scoreStep, pyGet, halk, hnum, hmem, numCount, textCount,
            numPresentSum, textPresentSum, List.filter_cons] <;> omega
      · ext <;>
          simp [scoreStep, pyGet, halk, hnum, hmem, numCount, textCount,
            numPresentSum, textPresentSum, List.filter_cons] <;> omega
    · have hmem : p ∈ keys pf := by
        rw [← alookup_isSome pf p, halk]
        rfl
      by_cases hnull : v = J.null
      · subst hnull
        by_cases hnum : isNumber e
        · ext <;>
            simp [scoreStep, pyGet, halk, hnum, hmem, numCount, textCount,
              numPresentSum, textPresentSum, List.filter_cons, numericSim] <;> omega
        · ext <;>
            simp [scoreStep, pyGet, halk, hnum, hmem, numCount, textCount,
              numPresentSum, textPresentSum, List.filter_cons, textSim] <;> omega
      · have hpy : pyGet pf p = some v := by
          rw [pyGet, halk]
          cases v <;> simp_all
        by_cases hnum : isNumber e
        · ext <;>
            simp [scoreStep, hpy, halk, hnum, hmem, numCount, textCount,
              numPresentSum, textPresentSum, List.filter_cons] <;> first
              | omega
              | ring
        · ext <;>
            simp [scoreStep, hpy, halk, hnum, hmem, numCount, textCount,
              numPresentSum, textPresentSum, List.filter_cons] <;> first
              | omega
              | ring

theorem classifyFold_spec (gtf : List (String × J)) (s : EvalState) :
    gtf.foldl classifyStep s =
      { s with
        numeric_total := s.numeric_total + numCount gtf
        text_total := s.text_total + textCount gtf } := by
  induction gtf generalizing s with
  | nil => simp [numCount, textCount]
  | cons pe rest ih =>
    obtain ⟨p, e⟩ := pe
    rw [List.foldl_cons, ih]
    by_cases hnum : isNumber e
    · ext <;> simp [classifyStep, hnum, numCount, textCount, List.filter_cons] <;> omega
    · ext <;> simp [classifyStep, hnum, numCount, textCount, List.filter_cons] <;> omega

/-! ### Branch specifications of the per-document loop body -/

theorem processDoc_none (pred : List (String × Document)) (s : EvalState)
    (id : String) (d : Document) (h : alookup pred id = none) :
    processDoc pred s (id, d) =
      { s with
        total_fields := s.total_fields + (docFlat d).length
        missing_docs := s.missing_docs ++ [id]
        missing_field_count := s.missing_field_count + (docFlat d).length
        missing_fields_by_doc := recordMissingFields id (docFlat d) s.missing_fields_by_doc
        numeric_total := s.numeric_total + numCount (docFlat d)
        text_total := s.text_total + textCount (docFlat d) } := by
  show (match alookup pred id with
    | none => _
    | some pred_doc => _) = _
  rw [h]
  simp only
  rw [classifyFold_spec]

/-- The missing-paths list of a matched document. -/
def missingPaths (gtf pf : List (String × J)) : List String :=
  sortStr ((keys gtf).filter (fun k => k ∉ keys pf))

/-- The extra-paths list of a matched document. -/
def extraPaths (gtf pf : List (String × J)) : List String :=
  sortStr ((keys pf).filter (fun k => k ∉ keys gtf))

/-- The matched-paths count of a matched document. -/
def commonCount (gtf pf : List (String × J)) : Nat :=
  ((keys gtf).filter (fun k => k ∈ keys pf)).length

/-- The state after the missing/extra bookkeeping of the matched branch,
before the scoring loop. -/
def matchedBook (s : EvalState) (id : String) (gtf pf : List (String × J)) :
    EvalState :=
  let s1 := { s with
    total_fields := s.total_fields + gtf.length
    docs_with_predictions := s.docs_with_predictions + 1
    matched_fields := s.matched_fields + commonCount gtf pf }
  let s2 :=
    if missingPaths gtf pf = [] then s1
    else { s1 with
      missing_fields_by_doc := dinsert s1.missing_fields_by_doc (id, missingPaths gtf pf)
      missing_field_count := s1.missing_field_count + (missingPaths gtf pf).length }
  if extraPaths gtf pf = [] then s2
  else { s2 with
    extra_fields_by_doc := dinsert s2.extra_fields_by_doc (id, extraPaths gtf pf)
    extra_field_count := s2.extra_field_count + (extraPaths gtf pf).length }

theorem processDoc_some (pred : List (String × Document)) (s : EvalState)
    (id : String) (d pd : Document) (h : alookup pred id = some pd) :
    processDoc pred s (id, d) =
      { matchedBook s id (docFlat d) (docFlat pd) with
        numeric_total :=
          (matchedBook s id (docFlat d) (docFlat pd)).numeric_total + numCount (docFlat d)
        text_total :=
          (matchedBook s id (docFlat d) (docFlat pd)).text_total + textCount (docFlat d)
        numeric_score :=
          (matchedBook s id (docFlat d) (docFlat pd)).numeric_score +
            numPresentSum (docFlat d) (docFlat pd)
        text_score :=
          (matchedBook s id (docFlat d) (docFlat pd)).text_score +
            textPresentSum (docFlat d) (docFlat pd) } := by
  show (match alookup pred id with
    | none => _
    | some pred_doc => _) = _
  rw [h]
  simp only
  rw [scoreFold_spec]
  rfl

/-! ### Bounds on the accumulators -/

theorem length_filter_and_le {α : Type} (p q : α → Bool) (l : List α) :
    (l.filter (fun a => p a && q a)).length ≤ (l.filter p).length := by
  induction l with
  | nil => simp
  | cons x xs ih =>
    by_cases hp : p x
    · by_cases hq : q x <;>
        simp [List.filter_cons, hp, hq] <;> omega
    · simp [List.filter_cons, hp, ih]

theorem numPresentSum_nonneg (gtf pf : List (String × J)) :
    0 ≤ numPresentSum gtf pf := by
  refine List.sum_nonneg ?_
  intro x hx
  obtain ⟨pv, _, rfl⟩ := List.mem_map.mp hx
  exact numericSim_nonneg _ _

theorem numPresentSum_le (gtf pf : List (String × J)) :
    numPresentSum gtf pf ≤ (numCount gtf : ℚ) := by
  have hsum := List.sum_le_card_nsmul
    ((gtf.filter (fun pv => isNumber pv.2 && decide (pv.1 ∈ keys pf))).map
      (fun pv => numericSim (numOf pv.2) ((alookup pf pv.1).getD J.null))) 1 ?_
  · have hlen : ((gtf.filter (fun pv => isNumber pv.2 && decide (pv.1 ∈ keys pf))).map
        (fun pv => numericSim (numOf pv.2) ((alookup pf pv.1).getD J.null))).length ≤
        numCount gtf := by
      rw [List.length_map]
      exact length_filter_and_le _ _ _
    calc numPresentSum gtf pf ≤ _ • (1 : ℚ) := hsum
      _ ≤ (numCount gtf : ℚ) := by
          rw [nsmul_eq_mul, mul_one]
          exact_mod_cast hlen
  · intro x hx
    obtain ⟨pv, _, rfl⟩ := List.mem_map.mp hx
    exact numericSim_le_one _ _

theorem textPresentSum_nonneg (gtf pf : List (String × J)) :
    0 ≤ textPresentSum gtf pf := by
  refine List.sum_nonneg ?_
  intro x hx
  obtain ⟨pv, _, rfl⟩ := List.mem_map.mp hx
  exact textSim_nonneg _ _

theorem textPresentSum_le (gtf pf : List (String × J)) :
    textPresentSum gtf pf ≤ (textCount gtf : ℚ) := by
  have hsum := List.sum_le_card_nsmul
    ((gtf.filter (fun pv => !isNumber pv.2 && decide (pv.1 ∈ keys pf))).map
      (fun pv => textSim (expectedText pv.2) ((alookup pf pv.1).getD J.null))) 1 ?_
  · have hlen : ((gtf.filter (fun pv => !isNumber pv.2 && decide (pv.1 ∈ keys pf))).map
        (fun pv => textSim (expectedText pv.2) ((alookup pf pv.1).getD J.null))).length ≤
        textCount gtf := by
      rw [List.length_map]
      exact length_filter_and_le _ _ _
    calc textPresentSum gtf pf ≤ _ • (1 : ℚ) := hsum
      _ ≤ (textCount gtf : ℚ) := by
          rw [nsmul_eq_mul, mul_one]
          exact_mod_cast hlen
  · intro x hx
    obtain ⟨pv, _, rfl⟩ := List.mem_map.mp hx
    exact textSim_le_one _ _

theorem commonCount_le (gtf pf : List (String × J)) :
    commonCount gtf pf ≤ gtf.length := by
  calc commonCount gtf pf ≤ (keys gtf).length := List.length_filter_le _ _
    _ = gtf.length := List.length_map _ _

/-- The running bounds that make every aggregate ratio land in `[0, 1]`. -/
def Inv (s : EvalState) : Prop :=
  0 ≤ s.numeric_score ∧ s.numeric_score ≤ (s.numeric_total : ℚ) ∧
  0 ≤ s.text_score ∧ s.text_score ≤ (s.text_total : ℚ) ∧
  s.matched_fields ≤ s.total_fields

theorem matchedBook_fields (s : EvalState) (id : String)
    (gtf pf : List (String × J)) :
    (matchedBook s id gtf pf).numeric_score = s.numeric_score ∧
    (matchedBook s id gtf pf).numeric_total = s.numeric_total ∧
    (matchedBook s id gtf pf).text_score = s.text_score ∧
    (matchedBook s id gtf pf).text_total = s.text_total ∧
    (matchedBook s id gtf pf).matched_fields = s.matched_fields + commonCount gtf pf ∧
    (matchedBook s id gtf pf).total_fields = s.total_fields + gtf.length ∧
    (matchedBook s id gtf pf).docs_with_predictions = s.docs_with_predictions + 1 ∧
    (matchedBook s id gtf pf).missing_docs = s.missing_docs := by
  rw [matchedBook]
  split <;> split <;> simp

theorem processDoc_inv (pred : List (String × Document)) (s : EvalState)
    (e : String × Document) (h : Inv s) : Inv (processDoc pred s e) := by
  obtain ⟨id, d⟩ := e
  obtain ⟨h1, h2, h3, h4, h5⟩ := h
  cases halk : alookup pred id with
  | none =>
    rw [processDoc_none pred s id d halk]
    refine ⟨h1, ?_, h3, ?_, ?_⟩ <;> simp <;> push_cast
    · have : (0 : ℚ) ≤ (numCount (docFlat d) : ℚ) := by positivity
      linarith
    · have : (0 : ℚ) ≤ (textCount (docFlat d) : ℚ) := by positivity
      linarith
    · omega
  | some pd =>
    rw [processDoc_some pred s id d pd halk]
    obtain ⟨f1, f2, f3, f4, f5, f6, _, _⟩ := matchedBook_fields s id (docFlat d) (docFlat pd)
    refine ⟨?_, ?_, ?_, ?_, ?_⟩ <;> simp [f1, f2, f3, f4, f5, f6]
    · have := numPresentSum_nonneg (docFlat d) (docFlat pd)
      linarith
    · have := numPresentSum_le (docFlat d) (docFlat pd)
      push_cast
      linarith
    · have := textPresentSum_nonneg (docFlat d) (docFlat pd)
      linarith
    · have := textPresentSum_le (docFlat d) (docFlat pd)
      push_cast
      linarith
    · have := commonCount_le (docFlat d) (docFlat pd)
      omega

theorem processDoc_dwp (pred : List (String × Document)) (s : EvalState)
    (e : String × Document) :
    (processDoc pred s e).docs_with_predictions ≤ s.docs_with_predictions + 1 := by
  obtain ⟨id, d⟩ := e
  cases halk : alookup pred id with
  | none =>
    rw [processDoc_none pred s id d halk]
    simp
  | some pd =>
    rw [processDoc_some pred s id d pd halk]
    obtain ⟨_, _, _, _, _, _, f7, _⟩ := matchedBook_fields s id (docFlat d) (docFlat pd)
    simp [f7]

theorem processExtra_inv (pred : List (String × Document)) (s : EvalState)
    (id : String) (h : Inv s) : Inv (processExtra pred s id) := by
  rw [processExtra]
  split
  · exact h
  · exact h

theorem processExtra_dwp (pred : List (String × Document)) (s : EvalState)
    (id : String) :
    (processExtra pred s id).docs_with_predictions = s.docs_with_predictions := by
  rw [processExtra]
  split <;> rfl

theorem foldl_processDoc_inv (pred : List (String × Document))
    (l : List (String × Document)) (s : EvalState) (h : Inv s) :
    Inv (l.foldl (processDoc pred) s) := by
  induction l generalizing s with
  | nil => exact h
  | cons e rest ih => exact ih _ (processDoc_inv pred s e h)

theorem foldl_processExtra_inv (pred : List (String × Document))
    (l : List String) (s : EvalState) (h : Inv s) :
    Inv (l.foldl (processExtra pred) s) := by
  induction l generalizing s with
  | nil => exact h
  | cons x xs ih => exact ih _ (processExtra_inv pred s x h)

theorem foldl_processDoc_dwp (pred : List (String × Document))
    (l : List (String × Document)) (s : EvalState) :
    (l.foldl (processDoc pred) s).docs_with_predictions ≤
      s.docs_with_predictions + l.length := by
  induction l generalizing s with
  | nil => simp
  | cons e rest ih =>
    calc (rest.foldl (processDoc pred) (processDoc pred s e)).docs_with_predictions
        ≤ (processDoc pred s e).docs_with_predictions + rest.length := ih _
      _ ≤ s.docs_with_predictions + 1 + rest.length := by
          have := processDoc_dwp pred s e
          omega
      _ = s.docs_with_predictions + (e :: rest).length := by
          simp [List.length_cons]
          omega

theorem foldl_processExtra_dwp (pred : List (String × Document))
    (l : List String) (s : EvalState) :
    (l.foldl (processExtra pred) s).docs_with_predictions =
      s.docs_with_predictions := by
  induction l generalizing s with
  | nil => rfl
  | cons x xs ih => rw [List.foldl_cons, ih, processExtra_dwp]

theorem initState_inv : Inv initState := by
  refine ⟨le_refl 0, ?_, le_refl 0, ?_, Nat.le_refl 0⟩ <;> simp [initState]

theorem evalState_inv (gt pred : List (String × Document)) :
    Inv (evalState gt pred) :=
  foldl_processExtra_inv _ _ _ (foldl_processDoc_inv _ _ _ initState_inv)

theorem evalState_dwp (gt pred : List (String × Document)) :
    (evalState gt pred).docs_with_predictions ≤ gt.length := by
  show ((extraDocs gt pred).foldl (processExtra pred)
    (gt.foldl (processDoc pred) initState)).docs_with_predictions ≤ gt.length
  rw [foldl_processExtra_dwp]
  have h := foldl_processDoc_dwp pred gt initState
  simpa [initState] using h

/-! ### Dictionary bookkeeping across the loops -/

theorem matchedBook_mfbd (s : EvalState) (id : String) (gtf pf : List (String × J)) :
    (matchedBook s id gtf pf).missing_fields_by_doc =
      if missingPaths gtf pf = [] then s.missing_fields_by_doc
      else dinsert s.missing_fields_by_doc (id, missingPaths gtf pf) := by
  rw [matchedBook]
  by_cases hm : missingPaths gtf pf = [] <;> by_cases he : extraPaths gtf pf = [] <;>
    simp [hm, he]

theorem matchedBook_efbd (s : EvalState) (id : String) (gtf pf : List (String × J)) :
    (matchedBook s id gtf pf).extra_fields_by_doc =
      if extraPaths gtf pf = [] then s.extra_fields_by_doc
      else dinsert s.extra_fields_by_doc (id, extraPaths gtf pf) := by
  rw [matchedBook]
  by_cases hm : missingPaths gtf pf = [] <;> by_cases he : extraPaths gtf pf = [] <;>
    simp [hm, he]

/-- What claim C7 asserts of the accumulator state for one ground-truth
document without a prediction: its id was appended to `missing_docs`, and
(unless it has no leaves) `missing_fields` maps its id to its sorted path
list. -/
def HoldsMissing (id : String) (d : Document) (s : EvalState) : Prop :=
  id ∈ s.missing_docs ∧
  (keys (docFlat d) = [] ∨
    alookup s.missing_fields_by_doc id = some (sortStr (keys (docFlat d))))

theorem processDoc_holdsMissing (pred : List (String × Document)) (s : EvalState)
    (e : String × Document) (id : String) (d : Document) (hne : e.1 ≠ id)
    (h : HoldsMissing id d s) : HoldsMissing id d (processDoc pred s e) := by
  obtain ⟨e1, ed⟩ := e
  obtain ⟨h1, h2⟩ := h
  have hne1 : ¬ e1 = id := hne
  cases halk : alookup pred e1 with
  | none =>
    rw [processDoc_none pred s e1 ed halk]
    refine ⟨List.mem_append_left _ h1, ?_⟩
    rcases h2 with h2 | h2
    · exact Or.inl h2
    · right
      show alookup (recordMissingFields e1 (docFlat ed) s.missing_fields_by_doc) id = _
      rw [recordMissingFields]
      split
      · exact h2
      · rw [alookup_dinsert, if_neg hne1]
        exact h2
  | some pd =>
    rw [processDoc_some pred s e1 ed pd halk]
    obtain ⟨_, _, _, _, _, _, _, f8⟩ := matchedBook_fields s e1 (docFlat ed) (docFlat pd)
    refine ⟨?_, ?_⟩
    · show id ∈ (matchedBook s e1 (docFlat ed) (docFlat pd)).missing_docs
      rw [f8]
      exact h1
    · rcases h2 with h2 | h2
      · exact Or.inl h2
      · right
        show alookup (matchedBook s e1 (docFlat ed) (docFlat pd)).missing_fields_by_doc id = _
        rw [matchedBook_mfbd]
        split
        · exact h2
        · rw [alookup_dinsert, if_neg hne1]
          exact h2

theorem processExtra_holdsMissing (pred : List (String × Document)) (s : EvalState)
    (x : String) (id : String) (d : Document)
    (h : HoldsMissing id d s) : HoldsMissing id d (processExtra pred s x) := by
  rw [processExtra]
  split
  · exact h
  · exact h

theorem foldl_processDoc_holdsMissing (pred : List (String × Document))
    (l : List (String × Document)) (s : EvalState) (id : String) (d : Document)
    (hl : ∀ e ∈ l, e.1 ≠ id) (h : HoldsMissing id d s) :
    HoldsMissing id d (l.foldl (processDoc pred) s) := by
  induction l generalizing s with
  | nil => exact h
  | cons e rest ih =>
    exact ih _ (fun x hx => hl x (List.mem_cons_of_mem e hx))
      (processDoc_holdsMissing pred s e id d (hl e (List.mem_cons_self e rest)) h)

theorem foldl_processExtra_holdsMissing (pred : List (String × Document))
    (l : List String) (s : EvalState) (id : String) (d : Document)
    (h : HoldsMissing id d s) :
    HoldsMissing id d (l.foldl (processExtra pred) s) := by
  induction l generalizing s with
  | nil => exact h
  | cons x xs ih => exact ih _ (processExtra_holdsMissing pred s x id d h)

/-- Both report dicts keep duplicate-free keys throughout. -/
def DictsNodup (s : EvalState) : Prop :=
  (keys s.missing_fields_by_doc).Nodup ∧ (keys s.extra_fields_by_doc).Nodup

theorem processDoc_dictsNodup (pred : List (String × Document)) (s : EvalState)
    (e : String × Document) (h : DictsNodup s) : DictsNodup (processDoc pred s e) := by
  obtain ⟨e1, ed⟩ := e
  obtain ⟨h1, h2⟩ := h
  cases halk : alookup pred e1 with
  | none =>
    rw [processDoc_none pred s e1 ed halk]
    refine ⟨?_, h2⟩
    show (keys (recordMissingFields e1 (docFlat ed) s.missing_fields_by_doc)).Nodup
    rw [recordMissingFields]
    split
    · exact h1
    · exact nodup_keys_dinsert _ _ _ h1
  | some pd =>
    rw [processDoc_some pred s e1 ed pd halk]
    constructor
    · show (keys (matchedBook s e1 (docFlat ed) (docFlat pd)).missing_fields_by_doc).Nodup
      rw [matchedBook_mfbd]
      split
      · exact h1
      · exact nodup_keys_dinsert _ _ _ h1
    · show (keys (matchedBook s e1 (docFlat ed) (docFlat pd)).extra_fields_by_doc).Nodup
      rw [matchedBook_efbd]
      split
      · exact h2
      · exact nodup_keys_dinsert _ _ _ h2

theorem processExtra_dictsNodup (pred : List (String × Document)) (s : EvalState)
    (x : String) (h : DictsNodup s) : DictsNodup (processExtra pred s x) := by
  obtain ⟨h1, h2⟩ := h
  rw [processExtra]
  split
  · exact ⟨h1, h2⟩
  · exact ⟨h1, nodup_keys_dinsert _ _ _ h2⟩

theorem foldl_processDoc_dictsNodup (pred : List (String × Document))
    (l : List (String × Document)) (s : EvalState) (h : DictsNodup s) :
    DictsNodup (l.foldl (processDoc pred) s) := by
  induction l generalizing s with
  | nil => exact h
  | cons e rest ih => exact ih _ (processDoc_dictsNodup pred s e h)

theorem foldl_processExtra_dictsNodup (pred : List (String × Document))
    (l : List String) (s : EvalState) (h : DictsNodup s) :
    DictsNodup (l.foldl (processExtra pred) s) := by
  induction l generalizing s with
  | nil => exact h
  | cons x xs ih => exact ih _ (processExtra_dictsNodup pred s x h)

theorem evalState_dictsNodup (gt pred : List (String × Document)) :
    DictsNodup (evalState gt pred) :=
  foldl_processExtra_dictsNodup _ _ _
    (foldl_processDoc_dictsNodup _ _ _ ⟨List.nodup_nil, List.nodup_nil⟩)

theorem sortStr_eq_nil {l : List String} (h : sortStr l = []) : l = [] := by
  have hp := List.perm_insertionSort (fun a b => strLe a b = true) l
  rw [sortStr] at h
  rw [h] at hp
  exact hp.symm.eq_nil

/-! ### Claim C7 -/

/-- C7: a ground-truth document with no matching prediction has its id
recorded in `missing_documents`, every path of its flattened fields listed
in `missing_fields` under its id, and its per-document step adds the
flattened field count to `missing_field_count` and classifies every leaf,
incrementing only the matching class total and leaving both score sums
untouched. -/
theorem c7_missing_document (gt pred : List (String × Document))
    (hnd : (keys gt).Nodup) (id : String) (d : Document)
    (hmem : (id, d) ∈ gt) (hnone : alookup pred id = none) :
    id ∈ (evaluate gt pred).missing_documents ∧
    (∀ p ∈ keys (docFlat d),
      p ∈ (alookup (evaluate gt pred).missing_fields id).getD []) ∧
    (∀ s : EvalState, processDoc pred s (id, d) =
      { s with
        total_fields := s.total_fields + (docFlat d).length
        missing_docs := s.missing_docs ++ [id]
        missing_field_count := s.missing_field_count + (docFlat d).length
        missing_fields_by_doc := recordMissingFields id (docFlat d) s.missing_fields_by_doc
        numeric_total := s.numeric_total + numCount (docFlat d)
        text_total := s.text_total + textCount (docFlat d) }) := by
  have hstate : HoldsMissing id d (evalState gt pred) := by
    obtain ⟨l1, l2, hgt⟩ := List.append_of_mem hmem
    subst hgt
    rw [keys, List.map_append, List.map_cons] at hnd
    have hid2 : ∀ e ∈ l2, e.1 ≠ id := by
      intro e he hc
      have hn2 := (List.Nodup.of_append_right hnd)
      rw [List.nodup_cons] at hn2
      refine hn2.1 ?_
      show id ∈ List.map Prod.fst l2
      rw [← hc]
      exact List.mem_map_of_mem Prod.fst he
    show HoldsMissing id d ((extraDocs _ pred).foldl (processExtra pred)
      ((l1 ++ (id, d) :: l2).foldl (processDoc pred) initState))
    rw [List.foldl_append, List.foldl_cons]
    refine foldl_processExtra_holdsMissing _ _ _ _ _
      (foldl_processDoc_holdsMissing _ _ _ _ _ hid2 ?_)
    rw [processDoc_none _ _ _ _ hnone]
    constructor
    · exact List.mem_append_right _ (by simp)
    · show keys (docFlat d) = [] ∨
        alookup (recordMissingFields id (docFlat d)
          (l1.foldl (processDoc pred) initState).missing_fields_by_doc) id =
          some (sortStr (keys (docFlat d)))
      rw [recordMissingFields]
      split
      · rename_i hpaths
        left
        exact sortStr_eq_nil hpaths
      · right
        rw [alookup_dinsert, if_pos rfl]
  refine ⟨?_, ?_, fun s => processDoc_none pred s id d hnone⟩
  · show id ∈ sortStr (evalState gt pred).missing_docs
    exact ((List.perm_insertionSort _ _).mem_iff).mpr hstate.1
  · intro p hp
    have hnd2 : (keys (evalState gt pred).missing_fields_by_doc).Nodup :=
      (evalState_dictsNodup gt pred).1
    have hperm : (sortByKey (evalState gt pred).missing_fields_by_doc).Perm
        (evalState gt pred).missing_fields_by_doc := List.perm_insertionSort _ _
    have hlk : alookup (sortByKey (evalState gt pred).missing_fields_by_doc) id =
        alookup (evalState gt pred).missing_fields_by_doc id :=
      alookup_perm hperm ((hperm.map Prod.fst).nodup_iff.mpr hnd2) id
    show p ∈ (alookup (sortByKey (evalState gt pred).missing_fields_by_doc) id).getD []
    rw [hlk]
    rcases hstate.2 with hkeys0 | hsome
    · rw [hkeys0] at hp
      cases hp
    · rw [hsome]
      show p ∈ sortStr (keys (docFlat d))
      exact ((List.perm_insertionSort _ _).mem_iff).mpr hp

/-- C7 witness: a one-document ground truth scored against an empty
prediction corpus, instantiated at its one path and at the initial state. -/
theorem c7_missing_document_witness :
    (keys [("d", (⟨"d", [("a", J.num 1)]⟩ : Document))]).Nodup ∧
    (("d", (⟨"d", [("a", J.num 1)]⟩ : Document)) ∈
      [("d", (⟨"d", [("a", J.num 1)]⟩ : Document))]) ∧
    alookup ([] : List (String × Document)) "d" = none ∧
    "d" ∈ (evaluate [("d", ⟨"d", [("a", J.num 1)]⟩)] []).missing_documents ∧
    (∀ p ∈ keys (docFlat (⟨"d", [("a", J.num 1)]⟩ : Document)),
      p ∈ (alookup (evaluate [("d", ⟨"d", [("a", J.num 1)]⟩)] []).missing_fields "d").getD []) := by
  have h := c7_missing_document [("d", ⟨"d", [("a", J.num 1)]⟩)] [] (by decide)
    "d" (⟨"d", [("a", J.num 1)]⟩ : Document) (List.mem_singleton.mpr rfl) rfl
  exact ⟨by decide, List.mem_singleton.mpr rfl, rfl, h.1, h.2.1⟩

/-! ### Claim C10 -/

/-- Claim C10's per-state assertion: `extra_fields` has no entry for the
id. -/
def NoExtraEntry (id : String) (s : EvalState) : Prop :=
  alookup s.extra_fields_by_doc id = none

theorem processDoc_noExtraEntry (pred : List (String × Document)) (s : EvalState)
    (e : String × Document) (id : String) (hne : e.1 ≠ id)
    (h : NoExtraEntry id s) : NoExtraEntry id (processDoc pred s e) := by
  obtain ⟨e1, ed⟩ := e
  have hne1 : ¬ e1 = id := hne
  cases halk : alookup pred e1 with
  | none =>
    rw [NoExtraEntry, processDoc_none pred s e1 ed halk]
    exact h
  | some pd =>
    rw [NoExtraEntry, processDoc_some pred s e1 ed pd halk]
    show alookup (matchedBook s e1 (docFlat ed) (docFlat pd)).extra_fields_by_doc id = none
    rw [matchedBook_efbd]
    split
    · exact h
    · rw [alookup_dinsert, if_neg hne1]
      exact h

theorem processExtra_noExtraEntry (pred : List (String × Document)) (s : EvalState)
    (x : String) (id : String)
    (hx : x ≠ id ∨ processExtra pred s id = s)
    (h : NoExtraEntry id s) : NoExtraEntry id (processExtra pred s x) := by
  by_cases hxi : x = id
  · subst hxi
    rcases hx with hx | hx
    · exact absurd rfl hx
    · rw [hx]
      exact h
  · rw [NoExtraEntry, processExtra]
    split
    · exact h
    · rw [alookup_dinsert, if_neg hxi]
      exact h

/-- C10: a prediction document whose id is absent from the ground truth and
whose fields flatten to the empty mapping is listed in `extra_documents`,
gets no key in `extra_fields`, and its extra-documents loop step leaves the
state — `extra_field_count` included — unchanged. -/
theorem c10_empty_extra_document (gt pred : List (String × Document))
    (hndp : (keys pred).Nodup) (id : String) (pd : Document)
    (hmem : (id, pd) ∈ pred) (hnotgt : id ∉ keys gt) (hflat : docFlat pd = []) :
    id ∈ (evaluate gt pred).extra_documents ∧
    alookup (evaluate gt pred).extra_fields id = none ∧
    (∀ s : EvalState, processExtra pred s id = s) := by
  have hpd : alookup pred id = some pd := mem_alookup hndp hmem
  have hproc : ∀ s : EvalState, processExtra pred s id = s := by
    intro s
    rw [processExtra, hpd]
    simp [hflat]
  refine ⟨?_, ?_, hproc⟩
  · show id ∈ extraDocs gt pred
    rw [extraDocs]
    refine ((List.perm_insertionSort _ _).mem_iff).mpr ?_
    rw [List.mem_dedup, List.mem_filter]
    exact ⟨List.mem_map_of_mem Prod.fst hmem, by simpa using hnotgt⟩
  · have hfold1 : ∀ (l : List (String × Document)) (s : EvalState),
        (∀ e ∈ l, e.1 ≠ id) → NoExtraEntry id s →
        NoExtraEntry id (l.foldl (processDoc pred) s) := by
      intro l
      induction l with
      | nil => exact fun s _ h => h
      | cons e rest ih =>
        intro s hl h
        exact ih _ (fun x hx => hl x (List.mem_cons_of_mem e hx))
          (processDoc_noExtraEntry pred s e id (hl e (List.mem_cons_self e rest)) h)
    have hfold2 : ∀ (l : List String) (s : EvalState),
        NoExtraEntry id s → NoExtraEntry id (l.foldl (processExtra pred) s) := by
      intro l
      induction l with
      | nil => exact fun s h => h
      | cons x xs ih =>
        intro s h
        exact ih _ (processExtra_noExtraEntry pred s x id (Or.inr (hproc s)) h)
    have hstate : NoExtraEntry id (evalState gt pred) := by
      show NoExtraEntry id ((extraDocs gt pred).foldl (processExtra pred)
        (gt.foldl (processDoc pred) initState))
      refine hfold2 _ _ (hfold1 _ _ ?_ rfl)
      intro e he hc
      exact hnotgt (hc ▸ List.mem_map_of_mem Prod.fst he)
    have hnd2 : (keys (evalState gt pred).extra_fields_by_doc).Nodup :=
      (evalState_dictsNodup gt pred).2
    have hperm : (sortByKey (evalState gt pred).extra_fields_by_doc).Perm
        (evalState gt pred).extra_fields_by_doc := List.perm_insertionSort _ _
    show alookup (sortByKey (evalState gt pred).extra_fields_by_doc) id = none
    rw [alookup_perm hperm ((hperm.map Prod.fst).nodup_iff.mpr hnd2) id]
    exact hstate

/-- C10 witness: an empty ground truth and one prediction document with no
fields at all. -/
theorem c10_empty_extra_document_witness :
    (keys [(("x" : String), (⟨"x", []⟩ : Document))]).Nodup ∧
    ((("x" : String), (⟨"x", []⟩ : Document)) ∈ [(("x" : String), (⟨"x", []⟩ : Document))]) ∧
    ("x" ∉ keys ([] : List (String × Document))) ∧
    docFlat (⟨"x", []⟩ : Document) = [] ∧
    "x" ∈ (evaluate [] [("x", ⟨"x", []⟩)]).extra_documents ∧
    alookup (evaluate [] [("x", ⟨"x", []⟩)]).extra_fields "x" = none := by
  have h := c10_empty_extra_document [] [("x", ⟨"x", []⟩)] (by decide) "x"
    (⟨"x", []⟩ : Document) (List.mem_singleton.mpr rfl) (by simp [keys]) rfl
  exact ⟨by decide, List.mem_singleton.mpr rfl, by simp [keys], rfl, h.1, h.2.1⟩

/-! ### Perfect-match lemmas (claim C1) -/

/-- Leaves that are strings or numbers; booleans and nulls are excluded
(those score 0 in the text class even against an identical prediction). -/
def isStrOrNum : J → Bool
  | .str _ => true
  | .num _ => true
  | _ => false

theorem sum_map_one {α : Type} (l : List α) :
    (l.map (fun _ => (1 : ℚ))).sum = l.length := by
  induction l with
  | nil => simp
  | cons x xs ih =>
    rw [List.map_cons, List.sum_cons, ih, List.length_cons]
    push_cast
    ring

theorem numPresentSum_perfect (gtf pf : List (String × J))
    (hnd : (keys gtf).Nodup) (heq : ∀ k, alookup gtf k = alookup pf k)
    (hsn : ∀ pv ∈ gtf, isStrOrNum pv.2 = true) :
    numPresentSum gtf pf = (numCount gtf : ℚ) := by
  have hmem : ∀ pv ∈ gtf, alookup pf pv.1 = some pv.2 := by
    intro pv h
    rw [← heq pv.1]
    exact mem_alookup hnd h
  rw [numPresentSum]
  have hfil : gtf.filter (fun pv => isNumber pv.2 && decide (pv.1 ∈ keys pf)) =
      gtf.filter (fun pv => isNumber pv.2) := by
    apply List.filter_congr
    intro pv hpv
    have hk : pv.1 ∈ keys pf := (alookup_isSome pf pv.1).mp (by rw [hmem pv hpv]; rfl)
    simp [hk]
  rw [hfil]
  have hone : ∀ pv ∈ gtf.filter (fun pv => isNumber pv.2),
      numericSim (numOf pv.2) ((alookup pf pv.1).getD J.null) = 1 := by
    intro pv hpv
    have hm := List.mem_of_mem_filter hpv
    have hn0 := List.of_mem_filter hpv
    have hn : isNumber pv.2 = true := hn0
    rw [hmem pv hm, Option.getD_some]
    cases hv : pv.2 with
    | num q => exact numericSim_self q
    | str s => rw [hv] at hn; simp [isNumber] at hn
    | bool b => rw [hv] at hn; simp [isNumber] at hn
    | null => rw [hv] at hn; simp [isNumber] at hn
    | arr xs => rw [hv] at hn; simp [isNumber] at hn
    | obj es => rw [hv] at hn; simp [isNumber] at hn
  rw [List.map_congr_left hone, sum_map_one]
  rfl

theorem textPresentSum_perfect (gtf pf : List (String × J))
    (hnd : (keys gtf).Nodup) (heq : ∀ k, alookup gtf k = alookup pf k)
    (hsn : ∀ pv ∈ gtf, isStrOrNum pv.2 = true) :
    textPresentSum gtf pf = (textCount gtf : ℚ) := by
  have hmem : ∀ pv ∈ gtf, alookup pf pv.1 = some pv.2 := by
    intro pv h
    rw [← heq pv.1]
    exact mem_alookup hnd h
  rw [textPresentSum]
  have hfil : gtf.filter (fun pv => !isNumber pv.2 && decide (pv.1 ∈ keys pf)) =
      gtf.filter (fun pv => !isNumber pv.2) := by
    apply List.filter_congr
    intro pv hpv
    have hk : pv.1 ∈ keys pf := (alookup_isSome pf pv.1).mp (by rw [hmem pv hpv]; rfl)
    simp [hk]
  rw [hfil]
  have hone : ∀ pv ∈ gtf.filter (fun pv => !isNumber pv.2),
      textSim (expectedText pv.2) ((alookup pf pv.1).getD J.null) = 1 := by
    intro pv hpv
    have hm := List.mem_of_mem_filter hpv
    have hn0 := List.of_mem_filter hpv
    have hn : (!isNumber pv.2) = true := hn0
    have hs := hsn pv hm
    rw [hmem pv hm, Option.getD_some]
    cases hv : pv.2 with
    | str s => exact textSim_self s
    | num q => rw [hv] at hn; simp [isNumber] at hn
    | bool b => rw [hv] at hs; simp [isStrOrNum] at hs
    | null => rw [hv] at hs; simp [isStrOrNum] at hs
    | arr xs => rw [hv] at hs; simp [isStrOrNum] at hs
    | obj es => rw [hv] at hs; simp [isStrOrNum] at hs
  rw [List.map_congr_left hone, sum_map_one]
  rfl

theorem commonCount_perfect (gtf pf : List (String × J))
    (hnd : (keys gtf).Nodup) (heq : ∀ k, alookup gtf k = alookup pf k) :
    commonCount gtf pf = gtf.length := by
  rw [commonCount]
  have hfil : (keys gtf).filter (fun k => k ∈ keys pf) = keys gtf := by
    refine List.filter_eq_self.mpr ?_
    intro k hk
    have h1 : (alookup gtf k).isSome := (alookup_isSome gtf k).mpr hk
    rw [heq k] at h1
    simpa using (alookup_isSome pf k).mp h1
  rw [hfil]
  exact List.length_map _ _

theorem missingPaths_perfect (gtf pf : List (String × J))
    (heq : ∀ k, alookup gtf k = alookup pf k) :
    missingPaths gtf pf = [] := by
  rw [missingPaths]
  have hfil : (keys gtf).filter (fun k => k ∉ keys pf) = [] := by
    refine List.filter_eq_nil_iff.mpr ?_
    intro k hk
    have h1 : (alookup gtf k).isSome := (alookup_isSome gtf k).mpr hk
    rw [heq k] at h1
    simp [(alookup_isSome pf k).mp h1]
  rw [hfil]
  rfl

theorem extraPaths_perfect (gtf pf : List (String × J))
    (heq : ∀ k, alookup gtf k = alookup pf k) :
    extraPaths gtf pf = [] := by
  rw [extraPaths]
  have hfil : (keys pf).filter (fun k => k ∉ keys gtf) = [] := by
    refine List.filter_eq_nil_iff.mpr ?_
    intro k hk
    have h1 : (alookup pf k).isSome := (alookup_isSome pf k).mpr hk
    rw [← heq k] at h1
    simp [(alookup_isSome gtf k).mp h1]
  rw [hfil]
  rfl

theorem processDoc_perfect (pred : List (String × Document)) (s : EvalState)
    (id : String) (d pd : Document) (halk : alookup pred id = some pd)
    (heq : ∀ k, alookup (docFlat d) k = alookup (docFlat pd) k)
    (hsn : ∀ pv ∈ docFlat d, isStrOrNum pv.2 = true) :
    processDoc pred s (id, d) =
      { s with
        total_fields := s.total_fields + (docFlat d).length
        docs_with_predictions := s.docs_with_predictions + 1
        matched_fields := s.matched_fields + (docFlat d).length
        numeric_total := s.numeric_total + numCount (docFlat d)
        numeric_score := s.numeric_score + (numCount (docFlat d) : ℚ)
        text_total := s.text_total + textCount (docFlat d)
        text_score := s.text_score + (textCount (docFlat d) : ℚ) } := by
  have hndf : (keys (docFlat d)).Nodup := docFlat_nodup d
  rw [processDoc_some pred s id d pd halk]
  have hmb : matchedBook s id (docFlat d) (docFlat pd) =
      { s with
        total_fields := s.total_fields + (docFlat d).length
        docs_with_predictions := s.docs_with_predictions + 1
        matched_fields := s.matched_fields + (docFlat d).length } := by
    rw [matchedBook]
    rw [commonCount_perfect _ _ hndf heq]
    rw [if_pos (missingPaths_perfect _ _ heq), if_pos (extraPaths_perfect _ _ heq)]
  rw [hmb, numPresentSum_perfect _ _ hndf heq hsn, textPresentSum_perfect _ _ hndf heq hsn]

theorem foldl_processDoc_perfect (pred : List (String × Document))
    (l : List (String × Document)) (s : EvalState)
    (h : ∀ e ∈ l, ∃ pd, alookup pred e.1 = some pd ∧
      (∀ k, alookup (docFlat e.2) k = alookup (docFlat pd) k) ∧
      (∀ pv ∈ docFlat e.2, isStrOrNum pv.2 = true)) :
    l.foldl (processDoc pred) s =
      { s with
        total_fields := s.total_fields + (l.map (fun e => (docFlat e.2).length)).sum
        docs_with_predictions := s.docs_with_predictions + l.length
        matched_fields := s.matched_fields + (l.map (fun e => (docFlat e.2).length)).sum
        numeric_total := s.numeric_total + (l.map (fun e => numCount (docFlat e.2))).sum
        numeric_score := s.numeric_score + ((l.map (fun e => numCount (docFlat e.2))).sum : ℚ)
        text_total := s.text_total + (l.map (fun e => textCount (docFlat e.2))).sum
        text_score := s.text_score + ((l.map (fun e => textCount (docFlat e.2))).sum : ℚ) } := by
  induction l generalizing s with
  | nil => simp
  | cons e rest ih =>
    obtain ⟨pd, halk, heq, hsn⟩ := h e (List.mem_cons_self e rest)
    obtain ⟨id, d⟩ := e
    rw [List.foldl_cons, processDoc_perfect pred s id d pd halk heq hsn,
      ih _ (fun x hx => h x (List.mem_cons_of_mem _ hx))]
    ext <;> simp <;> push_cast <;> first
      | ring
      | omega

/-! ### Rounding lemmas -/

theorem round4_zero : round4 0 = 0 := by
  norm_num [round4]

theorem round4_one : round4 1 = 1 := by
  norm_num [round4]

theorem round4_nonneg (x : ℚ) (h0 : 0 ≤ x) : 0 ≤ round4 x := by
  rw [round4]
  have hr : (0 : ℤ) ≤ round (x * 10000) := by
    rw [round_eq]
    refine Int.le_floor.mpr ?_
    push_cast
    nlinarith
  positivity

theorem round4_le_one (x : ℚ) (h1 : x ≤ 1) : round4 x ≤ 1 := by
  rw [round4]
  have hr : round (x * 10000) ≤ 10000 := by
    rw [round_eq]
    have hmono := Int.floor_mono (show x * 10000 + 1 / 2 ≤ 10000 + 1 / 2 by nlinarith)
    have hval : ⌊(10000 : ℚ) + 1 / 2⌋ = 10000 := by norm_num
    omega
  rw [div_le_one (by norm_num : (0 : ℚ) < 10000)]
  exact_mod_cast hr

/-! ### Claim C3 -/

/-- C3: for a ground-truth document with a matching prediction, the
per-document loop body of `evaluate_predictions` adds, for every path of the
flattened ground truth that is present as a key of the flattened prediction,
the class similarity of the expected and predicted values to that class's
running score sum, and increments the class's total counter whether or not
the path is present. -/
theorem c3_matched_document_scoring (pred : List (String × Document))
    (s : EvalState) (id : String) (d pd : Document)
    (h : alookup pred id = some pd) :
    (processDoc pred s (id, d)).numeric_total = s.numeric_total + numCount (docFlat d) ∧
    (processDoc pred s (id, d)).text_total = s.text_total + textCount (docFlat d) ∧
    (processDoc pred s (id, d)).numeric_score =
      s.numeric_score + numPresentSum (docFlat d) (docFlat pd) ∧
    (processDoc pred s (id, d)).text_score =
      s.text_score + textPresentSum (docFlat d) (docFlat pd) := by
  rw [processDoc_some pred s id d pd h]
  obtain ⟨f1, f2, f3, f4, _, _, _, _⟩ := matchedBook_fields s id (docFlat d) (docFlat pd)
  exact ⟨by simp [f2], by simp [f4], by simp [f1], by simp [f3]⟩

/-- C3 witness: a two-leaf document (one numeric, one textual) scored
against a prediction that only supplies the numeric leaf. -/
theorem c3_matched_document_scoring_witness :
    alookup [("d", (⟨"d", [("a", J.num 2)]⟩ : Document))] "d" =
      some (⟨"d", [("a", J.num 2)]⟩ : Document) ∧
    ((processDoc [("d", ⟨"d", [("a", J.num 2)]⟩)] initState
        ("d", ⟨"d", [("a", J.num 1), ("b", J.str "x")]⟩)).numeric_total =
      initState.numeric_total +
        numCount (docFlat ⟨"d", [("a", J.num 1), ("b", J.str "x")]⟩)) ∧
    ((processDoc [("d", ⟨"d", [("a", J.num 2)]⟩)] initState
        ("d", ⟨"d", [("a", J.num 1), ("b", J.str "x")]⟩)).numeric_score =
      initState.numeric_score +
        numPresentSum (docFlat ⟨"d", [("a", J.num 1), ("b", J.str "x")]⟩)
          (docFlat ⟨"d", [("a", J.num 2)]⟩)) ∧
    ((processDoc [("d", ⟨"d", [("a", J.num 2)]⟩)] initState
        ("d", ⟨"d", [("a", J.num 1), ("b", J.str "x")]⟩)).text_score =
      initState.text_score +
        textPresentSum (docFlat ⟨"d", [("a", J.num 1), ("b", J.str "x")]⟩)
          (docFlat ⟨"d", [("a", J.num 2)]⟩)) :=
  ⟨rfl,
    (c3_matched_document_scoring [("d", ⟨"d", [("a", J.num 2)]⟩)] initState "d"
      (⟨"d", [("a", J.num 1), ("b", J.str "x")]⟩ : Document)
      (⟨"d", [("a", J.num 2)]⟩ : Document) rfl).1,
    (c3_matched_document_scoring [("d", ⟨"d", [("a", J.num 2)]⟩)] initState "d"
      (⟨"d", [("a", J.num 1), ("b", J.str "x")]⟩ : Document)
      (⟨"d", [("a", J.num 2)]⟩ : Document) rfl).2.2.1,
    (c3_matched_document_scoring [("d", ⟨"d", [("a", J.num 2)]⟩)] initState "d"
      (⟨"d", [("a", J.num 1), ("b", J.str "x")]⟩ : Document)
      (⟨"d", [("a", J.num 2)]⟩ : Document) rfl).2.2.2⟩

/-! ### Claim C8 -/

/-- C8: for every pair of input corpora, the five aggregate metrics of the
report returned by `evaluate_predictions` (document coverage, structural
completeness, numeric field similarity, text field similarity, overall
score) all lie in the closed interval `[0, 1]`. -/
theorem c8_aggregate_metrics_in_unit_interval (gt pred : List (String × Document)) :
    (0 ≤ (evaluate gt pred).document_coverage ∧
      (evaluate gt pred).document_coverage ≤ 1) ∧
    (0 ≤ (evaluate gt pred).structural_completeness ∧
      (evaluate gt pred).structural_completeness ≤ 1) ∧
    (0 ≤ (evaluate gt pred).numeric_field_similarity ∧
      (evaluate gt pred).numeric_field_similarity ≤ 1) ∧
    (0 ≤ (evaluate gt pred).text_field_similarity ∧
      (evaluate gt pred).text_field_similarity ≤ 1) ∧
    (0 ≤ (evaluate gt pred).overall_score ∧ (evaluate gt pred).overall_score ≤ 1) := by
  obtain ⟨h1, h2, h3, h4, h5⟩ := evalState_inv gt pred
  have hdwp := evalState_dwp gt pred
  have hcov : 0 ≤ (if gt.length ≠ 0 then
        ((evalState gt pred).docs_with_predictions : ℚ) / gt.length else 0) ∧
      (if gt.length ≠ 0 then
        ((evalState gt pred).docs_with_predictions : ℚ) / gt.length else 0) ≤ 1 := by
    split
    · rename_i hgt
      have hpos : (0 : ℚ) < (gt.length : ℚ) := by
        exact_mod_cast Nat.pos_of_ne_zero hgt
      refine ⟨div_nonneg (by positivity) hpos.le, ?_⟩
      rw [div_le_one hpos]
      exact_mod_cast hdwp
    · norm_num
  have hns : 0 ≤ (if (evalState gt pred).numeric_total ≠ 0 then
        (evalState gt pred).numeric_score / (evalState gt pred).numeric_total else 1) ∧
      (if (evalState gt pred).numeric_total ≠ 0 then
        (evalState gt pred).numeric_score / (evalState gt pred).numeric_total else 1) ≤ 1 := by
    split
    · rename_i hnt
      have hpos : (0 : ℚ) < ((evalState gt pred).numeric_total : ℚ) := by
        exact_mod_cast Nat.pos_of_ne_zero hnt
      refine ⟨div_nonneg h1 hpos.le, ?_⟩
      rw [div_le_one hpos]
      exact h2
    · norm_num
  have hts : 0 ≤ (if (evalState gt pred).text_total ≠ 0 then
        (evalState gt pred).text_score / (evalState gt pred).text_total else 1) ∧
      (if (evalState gt pred).text_total ≠ 0 then
        (evalState gt pred).text_score / (evalState gt pred).text_total else 1) ≤ 1 := by
    split
    · rename_i htt
      have hpos : (0 : ℚ) < ((evalState gt pred).text_total : ℚ) := by
        exact_mod_cast Nat.pos_of_ne_zero htt
      refine ⟨div_nonneg h3 hpos.le, ?_⟩
      rw [div_le_one hpos]
      exact h4
    · norm_num
  have hsc : 0 ≤ (if (evalState gt pred).total_fields ≠ 0 then
        ((evalState gt pred).matched_fields : ℚ) / (evalState gt pred).total_fields else 1) ∧
      (if (evalState gt pred).total_fields ≠ 0 then
        ((evalState gt pred).matched_fields : ℚ) / (evalState gt pred).total_fields else 1) ≤ 1 := by
    split
    · rename_i htf
      have hpos : (0 : ℚ) < ((evalState gt pred).total_fields : ℚ) := by
        exact_mod_cast Nat.pos_of_ne_zero htf
      refine ⟨div_nonneg (by positivity) hpos.le, ?_⟩
      rw [div_le_one hpos]
      exact_mod_cast h5
    · norm_num
  refine ⟨⟨round4_nonneg _ hcov.1, round4_le_one _ hcov.2⟩,
    ⟨round4_nonneg _ hsc.1, round4_le_one _ hsc.2⟩,
    ⟨round4_nonneg _ hns.1, round4_le_one _ hns.2⟩,
    ⟨round4_nonneg _ hts.1, round4_le_one _ hts.2⟩,
    ⟨round4_nonneg _ ?_, round4_le_one _ ?_⟩⟩
  · obtain ⟨c0, _⟩ := hcov
    obtain ⟨n0, _⟩ := hns
    obtain ⟨t0, _⟩ := hts
    obtain ⟨s0, _⟩ := hsc
    linarith
  · obtain ⟨_, c1⟩ := hcov
    obtain ⟨_, n1⟩ := hns
    obtain ⟨_, t1⟩ := hts
    obtain ⟨_, s1⟩ := hsc
    linarith

/-! ### Claim C1 (corrected) -/

/-- C1 counterexample: two pairs of literally identical corpora whose
report does not reach an overall score of 1.0 — two empty corpora (coverage
defaults to 0, so the overall mean is 0.75), and a one-document corpus whose
single leaf is a boolean (an identical boolean prediction scores 0 in the
text class, since `_text_similarity` requires a string). -/
theorem c1_identical_corpora_counterexample :
    (evaluate [] []).overall_score ≠ 1 ∧
    (evaluate [("d", ⟨"d", [("a", J.bool true)]⟩)]
      [("d", ⟨"d", [("a", J.bool true)]⟩)]).overall_score ≠ 1 := by
  constructor
  · have h : (evaluate [] []).overall_score = 3 / 4 := by
      simp +decide [evaluate, evalState, processDoc, processExtra, extraDocs, initState,
        docFlat, flatten, flattenObj, flattenArr, dupdate, dinsert, alookup, keys, sortStr,
        sortByKey, recordMissingFields, scoreStep, classifyStep, pyGet, isNumber, numericSim,
        numOf, textSim, ratio, expectedText, dumps, strLe, lexLe, List.insertionSort,
        List.orderedInsert, round4]
      norm_num [round_eq]
    rw [h]
    norm_num
  · have h : (evaluate [("d", ⟨"d", [("a", J.bool true)]⟩)]
        [("d", ⟨"d", [("a", J.bool true)]⟩)]).overall_score = 3 / 4 := by
      simp +decide [evaluate, evalState, processDoc, processExtra, extraDocs, initState,
        docFlat, flatten, flattenObj, flattenArr, dupdate, dinsert, alookup, keys, sortStr,
        sortByKey, recordMissingFields, scoreStep, classifyStep, pyGet, isNumber, numericSim,
        numOf, textSim, ratio, expectedText, dumps, strLe, lexLe, List.insertionSort,
        List.orderedInsert, round4]
      norm_num [round_eq]
    rw [h]
    norm_num

/-- C1 amended: when the ground-truth corpus is NONEMPTY, the two corpora
carry the same document ids (duplicate-free on both sides), matching
documents flatten to the same path→value mapping, and every ground-truth
leaf is a string or a number (booleans and nulls score 0 in the text class
even when predicted identically), `evaluate_predictions` returns
`overall_score = 1.0` with `missing_documents`, `extra_documents`,
`missing_fields` and `extra_fields` all empty. -/
theorem c1_identical_corpora_perfect_score (gt pred : List (String × Document))
    (hne : gt ≠ []) (hndg : (keys gt).Nodup) (hndp : (keys pred).Nodup)
    (hkeys : (keys gt).Perm (keys pred))
    (hflat : ∀ id d pd, alookup gt id = some d → alookup pred id = some pd →
      ∀ k, alookup (docFlat d) k = alookup (docFlat pd) k)
    (hsn : ∀ e ∈ gt, ∀ pv ∈ docFlat e.2, isStrOrNum pv.2 = true) :
    (evaluate gt pred).overall_score = 1 ∧
    (evaluate gt pred).missing_documents = [] ∧
    (evaluate gt pred).extra_documents = [] ∧
    (evaluate gt pred).missing_fields = [] ∧
    (evaluate gt pred).extra_fields = [] := by
  have hh : ∀ e ∈ gt, ∃ pd, alookup pred e.1 = some pd ∧
      (∀ k, alookup (docFlat e.2) k = alookup (docFlat pd) k) ∧
      (∀ pv ∈ docFlat e.2, isStrOrNum pv.2 = true) := by
    intro e he
    have hg : alookup gt e.1 = some e.2 := mem_alookup hndg (by simpa using he)
    have hkp : e.1 ∈ keys pred := hkeys.mem_iff.mp (List.mem_map_of_mem Prod.fst he)
    obtain ⟨pd, hpd⟩ := Option.isSome_iff_exists.mp ((alookup_isSome pred e.1).mpr hkp)
    exact ⟨pd, hpd, hflat e.1 e.2 pd hg hpd, hsn e he⟩
  have hext : extraDocs gt pred = [] := by
    rw [extraDocs]
    have hfil : (keys pred).filter (fun k => k ∉ keys gt) = [] := by
      refine List.filter_eq_nil_iff.mpr ?_
      intro k hk
      simp [hkeys.mem_iff.mpr hk]
    rw [hfil]
    rfl
  have hstate : evalState gt pred =
      { initState with
        total_fields := initState.total_fields + (gt.map (fun e => (docFlat e.2).length)).sum
        docs_with_predictions := initState.docs_with_predictions + gt.length
        matched_fields := initState.matched_fields + (gt.map (fun e => (docFlat e.2).length)).sum
        numeric_total := initState.numeric_total + (gt.map (fun e => numCount (docFlat e.2))).sum
        numeric_score := initState.numeric_score + ((gt.map (fun e => numCount (docFlat e.2))).sum : ℚ)
        text_total := initState.text_total + (gt.map (fun e => textCount (docFlat e.2))).sum
        text_score := initState.text_score + ((gt.map (fun e => textCount (docFlat e.2))).sum : ℚ) } := by
    show (extraDocs gt pred).foldl (processExtra pred)
      (gt.foldl (processDoc pred) initState) = _
    rw [hext, List.foldl_nil, foldl_processDoc_perfect pred gt initState hh]
  have hlen : gt.length ≠ 0 := by
    intro h0
    exact hne (List.length_eq_zero.mp h0)
  refine ⟨?_, ?_, hext, ?_, ?_⟩
  · show round4 ((
      (if gt.length ≠ 0 then
        ((evalState gt pred).docs_with_predictions : ℚ) / gt.length else 0) +
      (if (evalState gt pred).total_fields ≠ 0 then
        ((evalState gt pred).matched_fields : ℚ) / (evalState gt pred).total_fields else 1) +
      (if (evalState gt pred).numeric_total ≠ 0 then
        (evalState gt pred).numeric_score / (evalState gt pred).numeric_total else 1) +
      (if (evalState gt pred).text_total ≠ 0 then
        (evalState gt pred).text_score / (evalState gt pred).text_total else 1)) / 4) = 1
    rw [hstate]
    simp only [initState, zero_add]
    rw [if_pos hlen]
    have hcov : ((gt.length : ℚ)) / (gt.length : ℚ) = 1 :=
      div_self (Nat.cast_ne_zero.mpr hlen)
    have hsc : (if (gt.map (fun e => (docFlat e.2).length)).sum ≠ 0 then
        (((gt.map (fun e => (docFlat e.2).length)).sum : ℚ) /
          ((gt.map (fun e => (docFlat e.2).length)).sum : ℚ)) else 1) = 1 := by
      split
      · rename_i hS
        exact div_self (Nat.cast_ne_zero.mpr hS)
      · rfl
    have hns : (if (gt.map (fun e => numCount (docFlat e.2))).sum ≠ 0 then
        (((gt.map (fun e => numCount (docFlat e.2))).sum : ℚ) /
          ((gt.map (fun e => numCount (docFlat e.2))).sum : ℚ)) else 1) = 1 := by
      split
      · rename_i hS
        exact div_self (Nat.cast_ne_zero.mpr hS)
      · rfl
    have hts : (if (gt.map (fun e => textCount (docFlat e.2))).sum ≠ 0 then
        (((gt.map (fun e => textCount (docFlat e.2))).sum : ℚ) /
          ((gt.map (fun e => textCount (docFlat e.2))).sum : ℚ)) else 1) = 1 := by
      split
      · rename_i hS
        exact div_self (Nat.cast_ne_zero.mpr hS)
      · rfl
    rw [hcov, hsc, hns, hts]
    norm_num [round4_one]
  · show sortStr (evalState gt pred).missing_docs = []
    rw [hstate]
    rfl
  · show sortByKey (evalState gt pred).missing_fields_by_doc = []
    rw [hstate]
    rfl
  · show sortByKey (evalState gt pred).extra_fields_by_doc = []
    rw [hstate]
    rfl

/-- C1 witness: a one-document corpus with one numeric and one string leaf,
evaluated against itself. -/
theorem c1_identical_corpora_perfect_score_witness :
    ([(("d1" : String), (⟨"d1", [("a", J.num 3), ("b", J.str "hi")]⟩ : Document))] ≠ []) ∧
    (keys [(("d1" : String), (⟨"d1", [("a", J.num 3), ("b", J.str "hi")]⟩ : Document))]).Nodup ∧
    (evaluate [("d1", ⟨"d1", [("a", J.num 3), ("b", J.str "hi")]⟩)]
      [("d1", ⟨"d1", [("a", J.num 3), ("b", J.str "hi")]⟩)]).overall_score = 1 ∧
    (evaluate [("d1", ⟨"d1", [("a", J.num 3), ("b", J.str "hi")]⟩)]
      [("d1", ⟨"d1", [("a", J.num 3), ("b", J.str "hi")]⟩)]).missing_documents = [] ∧
    (evaluate [("d1", ⟨"d1", [("a", J.num 3), ("b", J.str "hi")]⟩)]
      [("d1", ⟨"d1", [("a", J.num 3), ("b", J.str "hi")]⟩)]).extra_documents = [] ∧
    (evaluate [("d1", ⟨"d1", [("a", J.num 3), ("b", J.str "hi")]⟩)]
      [("d1", ⟨"d1", [("a", J.num 3), ("b", J.str "hi")]⟩)]).missing_fields = [] ∧
    (evaluate [("d1", ⟨"d1", [("a", J.num 3), ("b", J.str "hi")]⟩)]
      [("d1", ⟨"d1", [("a", J.num 3), ("b", J.str "hi")]⟩)]).extra_fields = [] := by
  have h := c1_identical_corpora_perfect_score
    [("d1", ⟨"d1", [("a", J.num 3), ("b", J.str "hi")]⟩)]
    [("d1", ⟨"d1", [("a", J.num 3), ("b", J.str "hi")]⟩)]
    (List.cons_ne_nil _ _) (by decide) (by decide) (List.Perm.refl _)
    (by
      intro id d pd h1 h2 k
      rw [h1] at h2
      injection h2 with h3
      rw [h3])
    (by decide)
  exact ⟨List.cons_ne_nil _ _, by decide, h.1, h.2.1, h.2.2.1, h.2.2.2.1, h.2.2.2.2⟩

/-! ### Claim C6 -/

/-- C6: in the report of `evaluate_predictions`, numeric similarity, text
similarity and structural completeness each equal 1.0 when their denominator
(numeric total, text total, total ground-truth fields) is zero, and coverage
equals 0.0 when the ground-truth corpus is empty. -/
theorem c6_zero_denominator_defaults (gt pred : List (String × Document)) :
    ((evalState gt pred).numeric_total = 0 →
      (evaluate gt pred).numeric_field_similarity = 1) ∧
    ((evalState gt pred).text_total = 0 →
      (evaluate gt pred).text_field_similarity = 1) ∧
    ((evalState gt pred).total_fields = 0 →
      (evaluate gt pred).structural_completeness = 1) ∧
    (gt = [] → (evaluate gt pred).document_coverage = 0) := by
  refine ⟨?_, ?_, ?_, ?_⟩
  · intro h
    show round4 (if (evalState gt pred).numeric_total ≠ 0 then
      (evalState gt pred).numeric_score / (evalState gt pred).numeric_total else 1) = 1
    rw [if_neg (by simp [h]), round4_one]
  · intro h
    show round4 (if (evalState gt pred).text_total ≠ 0 then
      (evalState gt pred).text_score / (evalState gt pred).text_total else 1) = 1
    rw [if_neg (by simp [h]), round4_one]
  · intro h
    show round4 (if (evalState gt pred).total_fields ≠ 0 then
      ((evalState gt pred).matched_fields : ℚ) / (evalState gt pred).total_fields else 1) = 1
    rw [if_neg (by simp [h]), round4_one]
  · intro h
    subst h
    show round4 (if ([] : List (String × Document)).length ≠ 0 then
      ((evalState [] pred).docs_with_predictions : ℚ) /
        ([] : List (String × Document)).length else 0) = 0
    rw [if_neg (by simp), round4_zero]

/-- C6 witness: with two empty corpora every denominator is zero and the
ground truth is empty, and the defaults are as claimed. -/
theorem c6_zero_denominator_defaults_witness :
    (evalState [] []).numeric_total = 0 ∧
    (evalState [] []).text_total = 0 ∧
    (evalState [] []).total_fields = 0 ∧
    (evaluate [] []).numeric_field_similarity = 1 ∧
    (evaluate [] []).text_field_similarity = 1 ∧
    (evaluate [] []).structural_completeness = 1 ∧
    (evaluate [] []).document_coverage = 0 := by
  refine ⟨rfl, rfl, rfl, ?_, ?_, ?_, ?_⟩
  · exact (c6_zero_denominator_defaults [] []).1 rfl
  · exact (c6_zero_denominator_defaults [] []).2.1 rfl
  · exact (c6_zero_denominator_defaults [] []).2.2.1 rfl
  · exact (c6_zero_denominator_defaults [] []).2.2.2 rfl

/-! ### Corpus-loading lemmas -/

theorem parseEntries_cons (e : J) (rest : List J) (acc : List (String × Document)) :
    parseEntries (e :: rest) acc =
      match e with
      | .obj es =>
        match alookup es "document_id", alookup es "fields" with
        | some (.str s), some (.obj fs) =>
          parseEntries rest (dinsert acc (s, ⟨s, fs⟩))
        | _, _ => .error "Each document requires 'document_id' (str) and 'fields' (object)"
      | _ => .error "Each document entry must be a JSON object" := rfl

theorem parseEntries_ok_iff (l : List J) (acc : List (String × Document)) :
    (∃ m, parseEntries l acc = .ok m) ↔ ∀ e ∈ l, WellFormedEntry e := by
  induction l generalizing acc with
  | nil => simp [parseEntries]
  | cons e rest ih =>
    constructor
    · rintro ⟨m, hm⟩
      cases e with
      | obj es =>
        rcases hdid : alookup es "document_id" with _ | v1
        · simp only [parseEntries_cons, hdid] at hm
          exact Except.noConfusion hm
        · rcases hfld : alookup es "fields" with _ | v2
          · cases v1 <;> (simp only [parseEntries_cons, hdid, hfld] at hm; exact Except.noConfusion hm)
          · cases v1 with
            | str s =>
              cases v2 with
              | obj fs =>
                simp only [parseEntries_cons, hdid, hfld] at hm
                intro x hx
                rcases List.mem_cons.mp hx with rfl | hx1
                · exact ⟨⟨s, hdid⟩, ⟨fs, hfld⟩⟩
                · exact ((ih _).mp ⟨m, hm⟩) x hx1
              | str t => (simp only [parseEntries_cons, hdid, hfld] at hm; exact Except.noConfusion hm)
              | num q => (simp only [parseEntries_cons, hdid, hfld] at hm; exact Except.noConfusion hm)
              | bool b => (simp only [parseEntries_cons, hdid, hfld] at hm; exact Except.noConfusion hm)
              | null => (simp only [parseEntries_cons, hdid, hfld] at hm; exact Except.noConfusion hm)
              | arr xs => (simp only [parseEntries_cons, hdid, hfld] at hm; exact Except.noConfusion hm)
            | num q => (simp only [parseEntries_cons, hdid, hfld] at hm; exact Except.noConfusion hm)
            | bool b => (simp only [parseEntries_cons, hdid, hfld] at hm; exact Except.noConfusion hm)
            | null => (simp only [parseEntries_cons, hdid, hfld] at hm; exact Except.noConfusion hm)
            | arr xs => (simp only [parseEntries_cons, hdid, hfld] at hm; exact Except.noConfusion hm)
            | obj es2 => (simp only [parseEntries_cons, hdid, hfld] at hm; exact Except.noConfusion hm)
      | str s => (simp only [parseEntries_cons] at hm; exact Except.noConfusion hm)
      | num q => (simp only [parseEntries_cons] at hm; exact Except.noConfusion hm)
      | bool b => (simp only [parseEntries_cons] at hm; exact Except.noConfusion hm)
      | null => (simp only [parseEntries_cons] at hm; exact Except.noConfusion hm)
      | arr xs => (simp only [parseEntries_cons] at hm; exact Except.noConfusion hm)
    · intro h
      have he := h e (List.mem_cons_self e rest)
      cases e with
      | obj es =>
        obtain ⟨⟨s, hs⟩, ⟨fs, hf⟩⟩ := he
        simp only [parseEntries_cons, hs, hf]
        exact (ih _).mpr (fun x hx => h x (List.mem_cons_of_mem _ hx))
      | str s => exact absurd he (by simp [WellFormedEntry])
      | num q => exact absurd he (by simp [WellFormedEntry])
      | bool b => exact absurd he (by simp [WellFormedEntry])
      | null => exact absurd he (by simp [WellFormedEntry])
      | arr xs => exact absurd he (by simp [WellFormedEntry])

/-- The `fields` dicts of the records of the payload carrying the given
`document_id`, in payload order. -/
def recordsWithId (payload : List J) (id : String) : List (List (String × J)) :=
  payload.filterMap (fun e =>
    match e with
    | .obj es =>
      match alookup es "document_id", alookup es "fields" with
      | some (.str s), some (.obj fs) => if s = id then some fs else none
      | _, _ => none
    | _ => none)

theorem getLast?_cons_of_ne {α : Type} (a : α) (l : List α) (h : l ≠ []) :
    (a :: l).getLast? = l.getLast? := by
  cases l with
  | nil => exact absurd rfl h
  | cons b t => rfl

theorem parseEntries_alookup (l : List J) (acc : List (String × Document))
    (m : List (String × Document)) (id : String)
    (h : parseEntries l acc = .ok m) :
    alookup m id =
      match (recordsWithId l id).getLast? with
      | some fs => some ⟨id, fs⟩
      | none => alookup acc id := by
  induction l generalizing acc with
  | nil =>
    simp [parseEntries] at h
    subst h
    simp [recordsWithId]
  | cons e rest ih =>
    cases e with
    | obj es =>
      rcases hdid : alookup es "document_id" with _ | v1
      · simp only [parseEntries_cons, hdid] at h
        exact Except.noConfusion h
      · rcases hfld : alookup es "fields" with _ | v2
        · cases v1 <;> (simp only [parseEntries_cons, hdid, hfld] at h; exact Except.noConfusion h)
        · cases v1 with
          | str s =>
            cases v2 with
            | obj fs =>
              simp only [parseEntries_cons, hdid, hfld] at h
              have hrec : recordsWithId (J.obj es :: rest) id =
                  (if s = id then [fs] else []) ++ recordsWithId rest id := by
                simp only [recordsWithId, List.filterMap_cons, hdid, hfld]
                by_cases hsid : s = id
                · simp [recordsWithId, hsid]
                · simp [recordsWithId, hsid]
              rw [ih _ h, hrec]
              rcases hlast : (recordsWithId rest id).getLast? with _ | fs1
              · have hnil : recordsWithId rest id = [] := by
                  simpa using hlast
                rw [hnil]
                by_cases hsid : s = id
                · subst hsid
                  simp [alookup_dinsert]
                · simp [hsid, alookup_dinsert]
              · have hne : recordsWithId rest id ≠ [] := by
                  intro hc
                  rw [hc] at hlast
                  simp at hlast
                by_cases hsid : s = id
                · subst hsid
                  rw [if_pos rfl, List.singleton_append, getLast?_cons_of_ne _ _ hne, hlast]
                · simp [hsid, hlast]
            | str t => (simp only [parseEntries_cons, hdid, hfld] at h; exact Except.noConfusion h)
            | num q => (simp only [parseEntries_cons, hdid, hfld] at h; exact Except.noConfusion h)
            | bool b => (simp only [parseEntries_cons, hdid, hfld] at h; exact Except.noConfusion h)
            | null => (simp only [parseEntries_cons, hdid, hfld] at h; exact Except.noConfusion h)
            | arr xs => (simp only [parseEntries_cons, hdid, hfld] at h; exact Except.noConfusion h)
          | num q => (simp only [parseEntries_cons, hdid, hfld] at h; exact Except.noConfusion h)
          | bool b => (simp only [parseEntries_cons, hdid, hfld] at h; exact Except.noConfusion h)
          | null => (simp only [parseEntries_cons, hdid, hfld] at h; exact Except.noConfusion h)
          | arr xs => (simp only [parseEntries_cons, hdid, hfld] at h; exact Except.noConfusion h)
          | obj es2 => (simp only [parseEntries_cons, hdid, hfld] at h; exact Except.noConfusion h)
    | str s => (simp only [parseEntries_cons] at h; exact Except.noConfusion h)
    | num q => (simp only [parseEntries_cons] at h; exact Except.noConfusion h)
    | bool b => (simp only [parseEntries_cons] at h; exact Except.noConfusion h)
    | null => (simp only [parseEntries_cons] at h; exact Except.noConfusion h)
    | arr xs => (simp only [parseEntries_cons] at h; exact Except.noConfusion h)

theorem parseEntries_nodup (l : List J) (acc : List (String × Document))
    (m : List (String × Document)) (h : parseEntries l acc = .ok m)
    (hacc : (keys acc).Nodup) : (keys m).Nodup := by
  induction l generalizing acc with
  | nil =>
    simp [parseEntries] at h
    subst h
    exact hacc
  | cons e rest ih =>
    cases e with
    | obj es =>
      rcases hdid : alookup es "document_id" with _ | v1
      · simp only [parseEntries_cons, hdid] at h
        exact Except.noConfusion h
      · rcases hfld : alookup es "fields" with _ | v2
        · cases v1 <;> (simp only [parseEntries_cons, hdid, hfld] at h; exact Except.noConfusion h)
        · cases v1 with
          | str s =>
            cases v2 with
            | obj fs =>
              simp only [parseEntries_cons, hdid, hfld] at h
              exact ih _ h (nodup_keys_dinsert _ _ _ hacc)
            | str t => (simp only [parseEntries_cons, hdid, hfld] at h; exact Except.noConfusion h)
            | num q => (simp only [parseEntries_cons, hdid, hfld] at h; exact Except.noConfusion h)
            | bool b => (simp only [parseEntries_cons, hdid, hfld] at h; exact Except.noConfusion h)
            | null => (simp only [parseEntries_cons, hdid, hfld] at h; exact Except.noConfusion h)
            | arr xs => (simp only [parseEntries_cons, hdid, hfld] at h; exact Except.noConfusion h)
          | num q => (simp only [parseEntries_cons, hdid, hfld] at h; exact Except.noConfusion h)
          | bool b => (simp only [parseEntries_cons, hdid, hfld] at h; exact Except.noConfusion h)
          | null => (simp only [parseEntries_cons, hdid, hfld] at h; exact Except.noConfusion h)
          | arr xs => (simp only [parseEntries_cons, hdid, hfld] at h; exact Except.noConfusion h)
          | obj es2 => (simp only [parseEntries_cons, hdid, hfld] at h; exact Except.noConfusion h)
    | str s => (simp only [parseEntries_cons] at h; exact Except.noConfusion h)
    | num q => (simp only [parseEntries_cons] at h; exact Except.noConfusion h)
    | bool b => (simp only [parseEntries_cons] at h; exact Except.noConfusion h)
    | null => (simp only [parseEntries_cons] at h; exact Except.noConfusion h)
    | arr xs => (simp only [parseEntries_cons] at h; exact Except.noConfusion h)


/-! ### Claim C4 (corrected) -/

/-- C4 counterexample: a record whose `fields` value is a JSON array — a
well-formed field tree per the spec — is rejected by `_parse_payload`, which
accepts only JSON objects as `fields`. -/
theorem c4_array_fields_rejected :
    parsePayload [J.obj [("document_id", J.str "d"), ("fields", J.arr [])]] =
      .error "Each document requires 'document_id' (str) and 'fields' (object)" := rfl

/-- C4 amended: corpus loading returns the full parsed corpus exactly when
every record is a JSON object with a string `document_id` and an OBJECT
`fields`; any other record — not an object, no string id, or `fields` that
is not an object, arrays included — raises a fatal error, and no corpus is
returned. -/
theorem c4_parse_ok_iff_wellformed (payload : List J) :
    (∃ m, parsePayload payload = .ok m) ↔ ∀ e ∈ payload, WellFormedEntry e :=
  parseEntries_ok_iff payload []

/-- C4 witness: a payload whose single record has object fields parses, by
the amended characterization. -/
theorem c4_parse_ok_iff_wellformed_witness :
    ∃ m, parsePayload [J.obj [("document_id", J.str "d"), ("fields", J.obj [])]] = .ok m := by
  refine (c4_parse_ok_iff_wellformed _).mpr ?_
  intro e he
  rcases List.mem_singleton.mp he with rfl
  exact ⟨⟨"d", rfl⟩, ⟨[], rfl⟩⟩

/-! ### Claim C9 -/

/-- C9: a payload of well-formed records containing two or more records with
the same `document_id` parses without error, and the corpus maps that id to
exactly one document whose fields are those of the last such record
(last-write-wins; the corpus keys are duplicate-free). -/
theorem c9_duplicate_ids_last_write_wins (payload : List J) (id : String)
    (hwf : ∀ e ∈ payload, WellFormedEntry e)
    (h2 : 2 ≤ (recordsWithId payload id).length) :
    ∃ m fs, parsePayload payload = .ok m ∧
      (recordsWithId payload id).getLast? = some fs ∧
      (keys m).Nodup ∧
      alookup m id = some ⟨id, fs⟩ := by
  obtain ⟨m, hm⟩ := (parseEntries_ok_iff payload []).mpr hwf
  have hne : recordsWithId payload id ≠ [] := by
    intro hc
    rw [hc] at h2
    simp at h2
  obtain ⟨fs, hfs⟩ := Option.isSome_iff_exists.mp (by
    rw [List.getLast?_isSome]
    exact hne)
  refine ⟨m, fs, hm, hfs, parseEntries_nodup _ _ _ hm (by simp [keys_nil]), ?_⟩
  have := parseEntries_alookup payload [] m id hm
  rw [hfs] at this
  simpa using this

/-- C9 witness: two well-formed records share the id "d"; parsing succeeds
and keeps the second record's fields. -/
theorem c9_duplicate_ids_last_write_wins_witness :
    (2 ≤ (recordsWithId
      [J.obj [("document_id", J.str "d"), ("fields", J.obj [("a", J.num 1)])],
       J.obj [("document_id", J.str "d"), ("fields", J.obj [("a", J.num 2)])]] "d").length) ∧
    ∃ m fs, parsePayload
        [J.obj [("document_id", J.str "d"), ("fields", J.obj [("a", J.num 1)])],
         J.obj [("document_id", J.str "d"), ("fields", J.obj [("a", J.num 2)])]] = .ok m ∧
      (recordsWithId
        [J.obj [("document_id", J.str "d"), ("fields", J.obj [("a", J.num 1)])],
         J.obj [("document_id", J.str "d"), ("fields", J.obj [("a", J.num 2)])]] "d").getLast? = some fs ∧
      (keys m).Nodup ∧
      alookup m "d" = some ⟨"d", fs⟩ := by
  refine ⟨by rfl, c9_duplicate_ids_last_write_wins _ "d" ?_ (by rfl)⟩
  intro e he
  rcases List.mem_cons.mp he with rfl | he'
  · exact ⟨⟨"d", rfl⟩, ⟨[("a", J.num 1)], rfl⟩⟩
  · rcases List.mem_singleton.mp he' with rfl
    exact ⟨⟨"d", rfl⟩, ⟨[("a", J.num 2)], rfl⟩⟩

/-! ### Claim C2 (corrected) -/

theorem lookupLast_perm {α : Type} {l1 l2 : List (String × α)} (hp : l1.Perm l2)
    (hnd : (keys l1).Nodup) (k : String) : lookupLast l1 k = lookupLast l2 k := by
  unfold lookupLast
  refine alookup_perm ?_ ?_ k
  · exact (l1.reverse_perm).trans (hp.trans l2.reverse_perm.symm)
  · rw [keys_reverse]
    simpa using hnd

/-- C2 counterexample: two mapping-rooted trees that differ only in the
insertion order of their two keys flatten to different path→value mappings,
because the leaf of key `"a"` and the leaf of key `"a.b"` collide on the
joined path `"a.b"` and the later entry wins. -/
theorem c2_reorder_collision_counterexample :
    ([(("a" : String), J.obj [("b", J.num 1)]), ("a.b", J.num 2)].Perm
      [("a.b", J.num 2), ("a", J.obj [("b", J.num 1)])]) ∧
    alookup ((flatten (J.obj [("a", J.obj [("b", J.num 1)]), ("a.b", J.num 2)]) []).getD [])
      "a.b" = some (J.num 2) ∧
    alookup ((flatten (J.obj [("a.b", J.num 2), ("a", J.obj [("b", J.num 1)])]) []).getD [])
      "a.b" = some (J.num 1) ∧
    J.num 2 ≠ J.num 1 := by
  refine ⟨List.Perm.swap _ _ _, rfl, rfl, ?_⟩
  intro h
  injection h with h2
  norm_num at h2

/-- C2 amended: flattening is deterministic (a pure function of the tree),
an empty mapping or empty sequence flattens to the empty mapping, and two
mapping-rooted trees that differ only in the insertion order of their keys
flatten to the same path→value mapping PROVIDED no two leaves share a
joined path (without that proviso the later colliding leaf wins, see the
counterexample). -/
theorem c2_flatten_deterministic_and_order_independent :
    (∀ (t : J) (p : List String), flatten t p = flatten t p) ∧
    flatten (J.obj []) [] = some [] ∧
    flatten (J.arr []) [] = some [] ∧
    (∀ es1 es2 : List (String × J), es1.Perm es2 →
      (keys (leaves (J.obj es1) [])).Nodup →
      ∀ k, alookup ((flatten (J.obj es1) []).getD []) k =
        alookup ((flatten (J.obj es2) []).getD []) k) := by
  refine ⟨fun t p => rfl, rfl, rfl, ?_⟩
  intro es1 es2 hp hnd k
  obtain ⟨m1, hm1⟩ := Option.isSome_iff_exists.mp
    (show (flatten (J.obj es1) []).isSome from flattenObj_isSome es1 [] [])
  obtain ⟨m2, hm2⟩ := Option.isSome_iff_exists.mp
    (show (flatten (J.obj es2) []).isSome from flattenObj_isSome es2 [] [])
  rw [hm1, hm2, Option.getD_some, Option.getD_some]
  rw [flatten_alookup _ _ m1 hm1 k, flatten_alookup _ _ m2 hm2 k]
  show lookupLast (leavesObj es1 []) k = lookupLast (leavesObj es2 []) k
  exact lookupLast_perm (leavesObj_perm hp []) (by simpa [leaves] using hnd) k

/-- C2 witness: reordering two collision-free keys leaves every flattened
lookup unchanged, instantiated at the path `"a"`. -/
theorem c2_flatten_order_independent_witness :
    ([(("a" : String), J.num 1), ("b", J.str "x")].Perm
      [("b", J.str "x"), ("a", J.num 1)]) ∧
    (keys (leaves (J.obj [("a", J.num 1), ("b", J.str "x")]) [])).Nodup ∧
    alookup ((flatten (J.obj [("a", J.num 1), ("b", J.str "x")]) []).getD []) "a" =
      alookup ((flatten (J.obj [("b", J.str "x"), ("a", J.num 1)]) []).getD []) "a" := by
  refine ⟨List.Perm.swap _ _ _, ?_, ?_⟩
  · show (["a", "b"] : List String).Nodup
    decide
  · exact c2_flatten_deterministic_and_order_independent.2.2.2 _ _
      (List.Perm.swap _ _ _) (by show (["a", "b"] : List String).Nodup; decide) "a"

/-! ### Claim C5 -/

/-- C5: numeric similarity returns 0 whenever the actual value is not a
number (booleans included), returns `max(0, 1 - min(diff, 1))` with
`diff = |expected - actual| / max(|expected|, |actual|, 1.0)` when it is,
and in particular scores two equal numbers exactly 1.0. -/
theorem c5_numeric_similarity_spec :
    (∀ (e : ℚ) (a : J), isNumber a = false → numericSim e a = 0) ∧
    (∀ (e : ℚ) (b : Bool), numericSim e (.bool b) = 0) ∧
    (∀ (e a : ℚ), numericSim e (.num a) =
      max 0 (1 - min (|e - a| / max |e| (max |a| 1)) 1)) ∧
    (∀ x : ℚ, numericSim x (.num x) = 1) := by
  refine ⟨?_, ?_, ?_, numericSim_self⟩
  · intro e a h
    cases a with
    | num q => simp [isNumber] at h
    | str s => rfl
    | bool b => rfl
    | null => rfl
    | arr xs => rfl
    | obj es => rfl
  · intro e b
    rfl
  · intro e a
    rfl

/-- C5 witness: a non-numeric actual value (a string, and a boolean) scores
0 against the expected number 2, and the pair (7, 7) scores exactly 1. -/
theorem c5_numeric_similarity_spec_witness :
    isNumber (J.str "x") = false ∧
    numericSim 2 (J.str "x") = 0 ∧
    numericSim 2 (J.bool true) = 0 ∧
    numericSim 7 (J.num 7) = 1 :=
  ⟨rfl, c5_numeric_similarity_spec.1 2 (J.str "x") rfl,
    c5_numeric_similarity_spec.2.1 2 true,
    c5_numeric_similarity_spec.2.2.2 7⟩

end EvalBinary
